import Mathlib

/-!
# Activator: on-demand activation proxy (`pkg/activator.go`)

A shallow embedding of the request handler of the activator package and of the
pieces it is built from:

* the route pattern `^/preview/([a-z0-9-]+)/([a-z0-9-]+)(/.*)?$`,
* the derivation of the deployment name and of the cluster-internal host name,
* the in-memory readiness cache (`IsReady`, `MarkReady`) under an explicit clock,
* the control-plane helpers `isDeploymentReady`, `scaleDeployment`,
  `waitForDeployment`,
* `activatorHandler` itself, as a state-passing function that records every
  control-plane call it makes,
* concurrent requests, as interleavings of the steps of several handlers.

Strings are Lean strings (sequences of Unicode code points); time is an
integer number of nanoseconds, as in Go's `time.Duration`.
-/

namespace Activator

/-! ## Route pattern -/

/-- The character class `[a-z0-9-]` of the route pattern. -/
def isRouteChar (c : Char) : Bool :=
  ('a' ≤ c && c ≤ 'z') || ('0' ≤ c && c ≤ '9') || c == '-'

/-- The regular-expression atom `.`: Go's `regexp` (RE2 syntax, flag `s` off)
matches any character except the line feed. -/
def isDotChar (c : Char) : Bool := c != '\n'

/-- Remove a literal prefix: `stripPrefix p l = some r` when `l = p ++ r`. -/
def stripPrefix : List Char → List Char → Option (List Char)
  | [], l => some l
  | _ :: _, [] => none
  | p :: ps, c :: cs => if p = c then stripPrefix ps cs else none

/-- Matcher for
`^/preview/(?P<env>[a-z0-9-]+)/(?P<svc>[a-z0-9-]+)(?P<rest>/.*)?$`
on a list of characters, returning the three capture groups.

* `^/preview/` is the literal prefix;
* `[a-z0-9-]+` is a non-empty greedy run of class characters; the character
  that follows it in the pattern (`/`, or the end of the text) is outside the
  class, so the greedy run is the only candidate;
* `(/.*)?$`: either the text ends here (the group does not take part and its
  submatch is the empty string), or a `/` follows and every remaining
  character up to the end of the text is matched by `.`. -/
def matchRoute (path : List Char) : Option (List Char × List Char × List Char) :=
  match stripPrefix "/preview/".data path with
  | none => none
  | some r1 =>
    let env := r1.takeWhile isRouteChar
    if env = [] then none else
    match r1.dropWhile isRouteChar with
    | '/' :: r2 =>
      let svc := r2.takeWhile isRouteChar
      if svc = [] then none else
      match r2.dropWhile isRouteChar with
      | [] => some (env, svc, [])
      | '/' :: t => if t.all isDotChar then some (env, svc, '/' :: t) else none
      | _ :: _ => none
    | _ => none

/-- The call `routePattern.FindStringSubmatch(path)`: `none` is Go's `nil`
result, `some (m1, m2, m3)` stands for the slice `[path, m1, m2, m3]`. -/
def routePattern.FindStringSubmatch (path : String) : Option (String × String × String) :=
  match matchRoute path.data with
  | none => none
  | some (e, s, r) => some (String.mk e, String.mk s, String.mk r)

/-- Parsed request target (`env`, `svc`, `rest` of `activatorHandler`). -/
structure Route where
  env : String
  svc : String
  rest : String
deriving DecidableEq, Repr

/-- Lines 55 to 66 of `activatorHandler`: match the path, read the three
groups, and replace an empty `rest` by `"/"`. `none` is the `Invalid path`
exit. -/
def parseRoute (path : String) : Option Route :=
  match routePattern.FindStringSubmatch path with
  | none => none
  | some m =>
    let env := m.1
    let svc := m.2.1
    let rest := m.2.2
    let rest := if rest = "" then "/" else rest
    some { env := env, svc := svc, rest := rest }

/-- The deployment name: `fmt.Sprintf("%s-ecosystem-%s", env, svc)`. -/
def serviceName (env svc : String) : String :=
  env ++ "-ecosystem-" ++ svc

/-- The host name: `fmt.Sprintf("%s.%s.svc.cluster.local", serviceName, namespace)`. -/
def fqdn (serviceName ns : String) : String :=
  serviceName ++ "." ++ ns ++ ".svc.cluster.local"

/-- The package variable `namespace`. -/
def defaultNamespace : String := "preview"

/-- A non-empty string over `[a-z0-9-]`. -/
def validName (s : String) : Prop :=
  s.data ≠ [] ∧ s.data.all isRouteChar = true

instance (s : String) : Decidable (validName s) := by
  unfold validName; infer_instance

/-! ## Time -/

/-- One second as a `time.Duration` (nanoseconds). -/
def Second : Int := 1000000000

/-- One minute as a `time.Duration`. -/
def Minute : Int := 60 * Second

/-- Largest `time.Duration` (`1<<63 - 1`). -/
def maxDuration : Int := 9223372036854775807

/-- Smallest `time.Duration` (`-1 << 63`). -/
def minDuration : Int := -9223372036854775808

/-- The library function `time.Since(t)` read at clock value `now`: the
difference `now - t`, saturated to the range of `time.Duration`. -/
def Since (now t : Int) : Int :=
  if maxDuration < now - t then maxDuration
  else if now - t < minDuration then minDuration
  else now - t

/-! ## Readiness cache -/

/-- The struct `readinessCache` (the mutex is not represented: every method
holds it for its whole body, so each call is one atomic step). -/
structure readinessCache where
  cache : String → Option Int
  expiry : Int

/-- The constructor `newReadinessCache`: an empty map and the given expiry. -/
def newReadinessCache (expiry : Int) : readinessCache :=
  { cache := fun _ => none, expiry := expiry }

/-- The method `IsReady`, with the clock reading `now` made explicit:
`t, ok := c.cache[name]; return ok && time.Since(t) < c.expiry`. -/
def readinessCache.IsReady (c : readinessCache) (now : Int) (name : String) : Bool :=
  match c.cache name with
  | some t => decide (Since now t < c.expiry)
  | none => false

/-- The method `MarkReady`, with the clock reading `now` made explicit:
`c.cache[name] = time.Now()`. -/
def readinessCache.MarkReady (c : readinessCache) (now : Int) (name : String) :
    readinessCache :=
  { c with cache := fun k => if k = name then some now else c.cache k }

/-- The package variable `cache = newReadinessCache(5 * time.Minute)`. -/
def cache : readinessCache := newReadinessCache (5 * Minute)

/-! ## The control plane and the environment -/

/-- The part of `appsv1.Deployment` the package reads: `Status.ReadyReplicas`. -/
structure Deployment where
  ReadyReplicas : Int
deriving DecidableEq, Repr

/-- The object `autoscalingv1.Scale`: `Spec.Replicas`, which the package
overwrites, and `ResourceVersion`, which travels unchanged from `GetScale` to
`UpdateScale` and by which the control plane detects a stale update. -/
structure Scale where
  Replicas : Int
  ResourceVersion : Nat
deriving DecidableEq, Repr

/-- The environment of the handler, over an arbitrary state `σ`: the three
calls the package makes on the Kubernetes client and `time.Sleep`. Every call
returns its result, the time it took in nanoseconds, and the next state of the
environment; `Sleep` returns by how much the sleep overshot. An error is
represented by its message. -/
structure World (σ : Type) where
  Get : String → String → σ → Except String Deployment × Nat × σ
  GetScale : String → String → σ → Except String Scale × Nat × σ
  UpdateScale : String → String → Scale → σ → Option String × Nat × σ
  Sleep : Int → σ → Nat × σ

/-- A call that left the process, in the order made. -/
inductive Event where
  | Get (ns name : String)
  | GetScale (ns name : String)
  | UpdateScale (ns name : String) (replicas : Int)
  | Sleep (d : Int)
deriving DecidableEq, Repr

/-- State threaded through the handler: the package-level readiness cache,
the clock, the state of the environment, and the calls made so far. -/
structure Sys (σ : Type) where
  cache : readinessCache
  now : Int
  world : σ
  trace : List Event

/-- The function `isDeploymentReady`: one `Get`; `false` on an error or when
`ReadyReplicas < 1`. -/
def isDeploymentReady {σ : Type} (K : World σ) (ns name : String) (s : Sys σ) :
    Bool × Sys σ :=
  let r := K.Get ns name s.world
  let s1 : Sys σ :=
    { s with now := s.now + r.2.1, world := r.2.2, trace := s.trace ++ [Event.Get ns name] }
  match r.1 with
  | .error _ => (false, s1)
  | .ok deploy => if deploy.ReadyReplicas < 1 then (false, s1) else (true, s1)

/-- The function `scaleDeployment`: `GetScale`, then, unless that failed,
`UpdateScale` with `Spec.Replicas` overwritten. The result is the error, if
any. -/
def scaleDeployment {σ : Type} (K : World σ) (ns name : String) (replicas : Int)
    (s : Sys σ) : Option String × Sys σ :=
  let r := K.GetScale ns name s.world
  let s1 : Sys σ :=
    { s with now := s.now + r.2.1, world := r.2.2, trace := s.trace ++ [Event.GetScale ns name] }
  match r.1 with
  | .error err => (some err, s1)
  | .ok scale =>
    let scale1 : Scale := { scale with Replicas := replicas }
    let u := K.UpdateScale ns name scale1 s1.world
    (u.1, { s1 with now := s1.now + u.2.1, world := u.2.2,
                    trace := s1.trace ++ [Event.UpdateScale ns name scale1.Replicas] })

/-- The call `time.Sleep(d)`: the clock advances by at least `d`. -/
def sleep {σ : Type} (K : World σ) (d : Int) (s : Sys σ) : Sys σ :=
  let r := K.Sleep d s.world
  { s with now := s.now + d + r.1, world := r.2, trace := s.trace ++ [Event.Sleep d] }

/-- The loop of `waitForDeployment`, `deadline` being the deadline of the
context: leave when the context is done; otherwise query once, leave when
ready, otherwise sleep three seconds and go round again. -/
def waitLoop {σ : Type} (K : World σ) (ns name : String) (deadline : Int) (s : Sys σ) :
    Sys σ :=
  if deadline ≤ s.now then s
  else
    let r := isDeploymentReady K ns name s
    if r.1 then r.2
    else waitLoop K ns name deadline (sleep K (3 * Second) r.2)
termination_by (deadline - s.now).toNat
decreasing_by
  have h1 : s.now ≤ (isDeploymentReady K ns name s).2.now := by
    unfold isDeploymentReady
    dsimp only
    split
    · simp
    · split <;> simp
  simp only [sleep, Second]
  omega

/-- The function `waitForDeployment`: the context expires `timeout` after the
call. -/
def waitForDeployment {σ : Type} (K : World σ) (ns name : String) (timeout : Int)
    (s : Sys σ) : Sys σ :=
  waitLoop K ns name (s.now + timeout) s

/-! ## The handler -/

/-- What the handler does with the request: an `http.Error` reply, or the
request handed to the reverse proxy with `r.Host = host` and
`r.URL.Path = path`. What the proxy then answers (the reply of the backend, or
503 from its error handler) is outside the model. -/
inductive Response where
  | error (status : Nat) (msg : String)
  | proxied (host path : String)
deriving DecidableEq, Repr

/-- The function `activatorHandler` on request path `path`, `ns` being the
value of the package variable `namespace`. Logging is left out. -/
def activatorHandler {σ : Type} (K : World σ) (ns : String) (path : String) (s : Sys σ) :
    Response × Sys σ :=
  match parseRoute path with
  | none => (Response.error 400 "Invalid path", s)
  | some route =>
    let serviceName := serviceName route.env route.svc
    let fqdn := fqdn serviceName ns
    if !s.cache.IsReady s.now serviceName then
      let r := isDeploymentReady K ns serviceName s
      if !r.1 then
        let sc := scaleDeployment K ns serviceName 1 r.2
        match sc.1 with
        | some err => (Response.error 500 ("Scale up failed: " ++ err), sc.2)
        | none =>
          let s3 := waitForDeployment K ns serviceName (120 * Second) sc.2
          (Response.proxied fqdn route.rest,
            { s3 with cache := s3.cache.MarkReady s3.now serviceName })
      else
        (Response.proxied fqdn route.rest,
          { r.2 with cache := r.2.cache.MarkReady r.2.now serviceName })
    else
      (Response.proxied fqdn route.rest, s)

/-- The scale requests in a trace: the `UpdateScale` calls, with their
arguments. -/
def scaleRequests : List Event → List (String × String × Int)
  | [] => []
  | Event.UpdateScale ns name n :: es => (ns, name, n) :: scaleRequests es
  | _ :: es => scaleRequests es

/-- The shape of the third capture group: empty, or a `/` followed by
characters that `.` matches. -/
def validSubpath (sub : String) : Bool :=
  match sub.data with
  | [] => true
  | c :: t => c == '/' && t.all isDotChar

/-- The cache after `MarkReady(id)` at time `t` followed by further `MarkReady`
calls `later`, given as (identifier, time) pairs in the order made. -/
def markAll (c : readinessCache) (later : List (String × Int)) : readinessCache :=
  later.foldl (fun acc op => acc.MarkReady op.2 op.1) c

/-- The name contains `-ecosystem`, the separator without its last hyphen. -/
def containsDashEcosystem (env : String) : Prop :=
  "-ecosystem".data <:+: env.data

/-- The name contains `ecosystem-`, the separator without its first hyphen. -/
def containsEcosystemDash (svc : String) : Prop :=
  "ecosystem-".data <:+: svc.data

instance (s : String) : Decidable (containsDashEcosystem s) := by
  unfold containsDashEcosystem; infer_instance

instance (s : String) : Decidable (containsEcosystemDash s) := by
  unfold containsEcosystemDash; infer_instance

/-! ## A small cluster to run the handler against -/

/-- A cluster holding one deployment, whatever name is asked for. Its state is
`none` while the deployment is scaled to zero and `some k` once it has been
scaled up, `k` being the number of status queries that still see no ready
replica. Calls take no time and never fail; `startup` is the number of
not-ready queries after a scale-up. -/
def cluster (startup : Nat) : World (Option Nat) where
  Get := fun _ _ w =>
    match w with
    | none => (Except.ok { ReadyReplicas := 0 }, 0, none)
    | some 0 => (Except.ok { ReadyReplicas := 1 }, 0, some 0)
    | some (k + 1) => (Except.ok { ReadyReplicas := 0 }, 0, some k)
  GetScale := fun _ _ w =>
    match w with
    | none => (Except.ok { Replicas := 0, ResourceVersion := 0 }, 0, w)
    | some _ => (Except.ok { Replicas := 1, ResourceVersion := 0 }, 0, w)
  UpdateScale := fun _ _ scale w =>
    match w with
    | none => if 1 ≤ scale.Replicas then (none, 0, some startup) else (none, 0, none)
    | some k => if 1 ≤ scale.Replicas then (none, 0, some k) else (none, 0, none)
  Sleep := fun _ w => (0, w)

/-- A cluster whose control plane refuses every scale request. -/
def rejectingCluster : World Unit where
  Get := fun _ _ w => (Except.ok { ReadyReplicas := 0 }, 0, w)
  GetScale := fun _ _ w => (Except.ok { Replicas := 0, ResourceVersion := 0 }, 0, w)
  UpdateScale := fun _ _ _ w => (some "quota exceeded", 0, w)
  Sleep := fun _ w => (0, w)

/-- A cluster with optimistic concurrency control. Its state is the current
resource version of the deployment and whether the deployment is up. An
`UpdateScale` carrying the current version is applied and bumps the version;
one carrying an older version is refused as a conflict. -/
def versionedCluster : World (Nat × Bool) where
  Get := fun _ _ w =>
    match w with
    | (_, true) => (Except.ok { ReadyReplicas := 1 }, 0, w)
    | (_, false) => (Except.ok { ReadyReplicas := 0 }, 0, w)
  GetScale := fun _ _ w =>
    match w with
    | (v, true) => (Except.ok { Replicas := 1, ResourceVersion := v }, 0, w)
    | (v, false) => (Except.ok { Replicas := 0, ResourceVersion := v }, 0, w)
  UpdateScale := fun _ _ scale w =>
    if scale.ResourceVersion = w.1 then
      (none, 0, (w.1 + 1, decide (1 ≤ scale.Replicas)))
    else
      (some "the object has been modified", 0, w)
  Sleep := fun _ w => (0, w)

/-- The state of a freshly started process at clock value `now`: the package
cache is empty and no call has been made. -/
def initial {σ : Type} (now : Int) (w : σ) : Sys σ :=
  { cache := cache, now := now, world := w, trace := [] }

/-! ## Concurrent requests

`net/http` runs every request in a goroutine of its own. The handler touches
shared state only through the cache methods (each atomic under the mutex),
through the calls on the client and by reading the clock, so an execution of
several handlers is an interleaving of the steps below, one step per such
access. A call or a sleep takes effect at the instant of its step and then
keeps its own handler, and no other, busy for the time it takes; the shared
clock moves only when time passes for everybody (`Action.tick`), so handlers
wait and sleep in parallel. -/

/-- The first result of `isDeploymentReady` as a function of the reply to
`Get`: ready unless the call failed or `ReadyReplicas < 1`. -/
def reportsReady : Except String Deployment → Bool
  | .error _ => false
  | .ok deploy => if deploy.ReadyReplicas < 1 then false else true

/-- The error of a reply, if it is one. -/
def errorOf {α : Type} : Except String α → Option String
  | .error err => some err
  | .ok _ => none

/-- A call as the handler that made it saw it: what was called and the error
that came back, if any. -/
structure Call where
  event : Event
  error : Option String
deriving DecidableEq, Repr

/-- The call is a scale request (`UpdateScale`). -/
def Call.isScale (c : Call) : Bool :=
  match c.event with
  | Event.UpdateScale _ _ _ => true
  | _ => false

/-- Where a running handler stands. -/
inductive Phase where
  /-- Line 55: nothing done yet. -/
  | start
  /-- Line 72: the cache said not ready; `isDeploymentReady` comes next. -/
  | query (route : Route)
  /-- Line 106: the deployment was not ready; `GetScale` comes next. -/
  | getScale (route : Route)
  /-- Line 111: `UpdateScale` with the modified object comes next. -/
  | updateScale (route : Route) (scale : Scale)
  /-- Line 116: the scale request succeeded; `context.WithTimeout` comes next. -/
  | waitStart (route : Route)
  /-- Line 119: in the wait loop, the check of the context comes next. -/
  | poll (route : Route) (deadline : Int)
  /-- Line 128: in the wait loop, `time.Sleep` comes next. -/
  | sleeping (route : Route) (deadline : Int)
  /-- Line 81: `cache.MarkReady` comes next. -/
  | mark (route : Route)
  /-- The handler has returned. -/
  | finished (resp : Response)
deriving DecidableEq, Repr

/-- What one step of a handler does: the phase it moves to, for how long the
call or sleep it started keeps it busy, the calls it made, and the shared
state it leaves (the clock is not moved). -/
structure Step (σ : Type) where
  phase : Phase
  delay : Int
  calls : List Call
  sys : Sys σ

/-- One step of one handler on the shared state, taken at clock value
`s.now`. -/
def stepThread {σ : Type} (K : World σ) (ns : String) (path : String) :
    Phase → Sys σ → Step σ
  | Phase.start, s =>
    match parseRoute path with
    | none =>
      { phase := Phase.finished (Response.error 400 "Invalid path"), delay := 0, calls := [],
        sys := s }
    | some route =>
      if !s.cache.IsReady s.now (serviceName route.env route.svc) then
        { phase := Phase.query route, delay := 0, calls := [], sys := s }
      else
        { phase := Phase.finished
            (Response.proxied (fqdn (serviceName route.env route.svc) ns) route.rest),
          delay := 0, calls := [], sys := s }
  | Phase.query route, s =>
    let name := serviceName route.env route.svc
    let r := isDeploymentReady K ns name s
    let call : Call := { event := Event.Get ns name, error := errorOf (K.Get ns name s.world).1 }
    if !r.1 then
      { phase := Phase.getScale route, delay := r.2.now - s.now, calls := [call],
        sys := { r.2 with now := s.now } }
    else
      { phase := Phase.mark route, delay := r.2.now - s.now, calls := [call],
        sys := { r.2 with now := s.now } }
  | Phase.getScale route, s =>
    let name := serviceName route.env route.svc
    let r := K.GetScale ns name s.world
    let s1 : Sys σ :=
      { s with world := r.2.2, trace := s.trace ++ [Event.GetScale ns name] }
    match r.1 with
    | .error err =>
      { phase := Phase.finished (Response.error 500 ("Scale up failed: " ++ err)),
        delay := r.2.1, calls := [{ event := Event.GetScale ns name, error := some err }],
        sys := s1 }
    | .ok scale =>
      { phase := Phase.updateScale route { scale with Replicas := 1 },
        delay := r.2.1, calls := [{ event := Event.GetScale ns name, error := none }],
        sys := s1 }
  | Phase.updateScale route scale1, s =>
    let name := serviceName route.env route.svc
    let u := K.UpdateScale ns name scale1 s.world
    let s1 : Sys σ :=
      { s with world := u.2.2,
               trace := s.trace ++ [Event.UpdateScale ns name scale1.Replicas] }
    match u.1 with
    | some err =>
      { phase := Phase.finished (Response.error 500 ("Scale up failed: " ++ err)),
        delay := u.2.1,
        calls := [{ event := Event.UpdateScale ns name scale1.Replicas, error := some err }],
        sys := s1 }
    | none =>
      { phase := Phase.waitStart route, delay := u.2.1,
        calls := [{ event := Event.UpdateScale ns name scale1.Replicas, error := none }],
        sys := s1 }
  | Phase.waitStart route, s =>
    { phase := Phase.poll route (s.now + 120 * Second), delay := 0, calls := [], sys := s }
  | Phase.poll route deadline, s =>
    if deadline ≤ s.now then
      { phase := Phase.mark route, delay := 0, calls := [], sys := s }
    else
      let name := serviceName route.env route.svc
      let r := isDeploymentReady K ns name s
      let call : Call :=
        { event := Event.Get ns name, error := errorOf (K.Get ns name s.world).1 }
      if r.1 then
        { phase := Phase.mark route, delay := r.2.now - s.now, calls := [call],
          sys := { r.2 with now := s.now } }
      else
        { phase := Phase.sleeping route deadline, delay := r.2.now - s.now, calls := [call],
          sys := { r.2 with now := s.now } }
  | Phase.sleeping route deadline, s =>
    let s1 := sleep K (3 * Second) s
    { phase := Phase.poll route deadline, delay := s1.now - s.now,
      calls := [{ event := Event.Sleep (3 * Second), error := none }],
      sys := { s1 with now := s.now } }
  | Phase.mark route, s =>
    { phase := Phase.finished
        (Response.proxied (fqdn (serviceName route.env route.svc) ns) route.rest),
      delay := 0, calls := [],
      sys := { s with cache := s.cache.MarkReady s.now (serviceName route.env route.svc) } }
  | Phase.finished resp, s =>
    { phase := Phase.finished resp, delay := 0, calls := [], sys := s }

/-- A request in flight: its path, where its handler stands, until when the
call or sleep it started last keeps it busy, and the calls it has made. -/
structure Thread where
  path : String
  phase : Phase
  wake : Option Int
  calls : List Call
deriving DecidableEq, Repr

/-- The handler is still inside a call or a sleep at clock value `now`. -/
def Thread.blocked (t : Thread) (now : Int) : Bool :=
  match t.wake with
  | some w => decide (now < w)
  | none => false

/-- The handler takes its next step, unless it is still busy. -/
def stepOne {σ : Type} (K : World σ) (ns : String) (t : Thread) (s : Sys σ) :
    Thread × Sys σ :=
  if t.blocked s.now then (t, s)
  else
    let r := stepThread K ns t.path t.phase s
    ({ path := t.path, phase := r.phase, wake := some (s.now + r.delay),
       calls := t.calls ++ r.calls }, r.sys)

/-- What happens next in an execution: handler number `i` is scheduled, or
`d` nanoseconds pass. -/
inductive Action where
  | run (i : Nat)
  | tick (d : Nat)
deriving DecidableEq, Repr

/-- Schedule handler number `i` (nothing happens when there is no such
handler). -/
def stepAt {σ : Type} (K : World σ) (ns : String) (i : Nat)
    (st : List Thread × Sys σ) : List Thread × Sys σ :=
  match st.1.get? i with
  | none => st
  | some t => ((st.1.set i (stepOne K ns t st.2).1), (stepOne K ns t st.2).2)

/-- Let `d` nanoseconds pass. -/
def passTime {σ : Type} (d : Nat) (s : Sys σ) : Sys σ :=
  { s with now := s.now + d }

/-- One action on the handlers and the shared state. -/
def act {σ : Type} (K : World σ) (ns : String) :
    Action → List Thread × Sys σ → List Thread × Sys σ
  | Action.run i, st => stepAt K ns i st
  | Action.tick d, st => (st.1, passTime d st.2)

/-- Run an interleaving: the schedule lists what happens next. -/
def runSchedule {σ : Type} (K : World σ) (ns : String) :
    List Action → List Thread × Sys σ → List Thread × Sys σ
  | [], st => st
  | a :: rest, st => runSchedule K ns rest (act K ns a st)

/-- Run one handler on its own. -/
def runOne {σ : Type} (K : World σ) (ns : String) :
    List Action → Thread × Sys σ → Thread × Sys σ
  | [], st => st
  | Action.run _ :: rest, st => runOne K ns rest (stepOne K ns st.1 st.2)
  | Action.tick d :: rest, st => runOne K ns rest (st.1, passTime d st.2)

/-- A request that has just arrived: its handler has not started. -/
def arrival (path : String) : Thread :=
  { path := path, phase := Phase.start, wake := none, calls := [] }

/-- Requests as they arrive: one handler that has not started for each path. -/
def arrivals : List String → List Thread
  | [] => []
  | path :: paths => arrival path :: arrivals paths

/-- The number of scale requests among the calls of one handler. -/
def scaleCount (cs : List Call) : Nat :=
  (cs.filter Call.isScale).length

/-- The number of scale requests the handlers have made between them. -/
def totalScale : List Thread → Nat
  | [] => 0
  | t :: ts => scaleCount t.calls + totalScale ts

/-- The handler has returned. -/
def Thread.returned (t : Thread) : Prop :=
  ∃ resp, t.phase = Phase.finished resp

/-- The schedule in which handler `i` is scheduled wherever `acts` schedules
a handler. -/
def onThread (i : Nat) : List Action → List Action
  | [] => []
  | Action.run _ :: rest => Action.run i :: onThread i rest
  | Action.tick d :: rest => Action.tick d :: onThread i rest

/-- The path parses to `route`, and `route` names deployment `id`. -/
def routeOf (id path : String) (route : Route) : Prop :=
  parseRoute path = some route ∧ serviceName route.env route.svc = id

/-- The calls hold at most one scale request, and a scale request in them is
`UpdateScale(ns, id, 1)`. -/
def scaleOk (ns id : String) (cs : List Call) : Prop :=
  scaleCount cs ≤ 1 ∧ ∀ c ∈ cs, c.isScale = true → c.event = Event.UpdateScale ns id 1

/-- No scale request among the calls failed. -/
def noFailedScale (cs : List Call) : Prop :=
  ∀ c ∈ cs, c.isScale = true → c.error = none

/-- The reply is the request forwarded to the host of deployment `id`, with
the rest of the path as path, by a handler none of whose scale requests
failed. -/
def forwarded (ns id path : String) (cs : List Call) (resp : Response) : Prop :=
  ∃ route, routeOf id path route ∧ resp = Response.proxied (fqdn id ns) route.rest ∧
    noFailedScale cs

/-- The reply is 500 with the error of the last call of the handler, which is
a failed `GetScale` or a failed `UpdateScale(ns, id, 1)`. -/
def failedScale (ns id : String) (cs : List Call) (resp : Response) : Prop :=
  ∃ err, resp = Response.error 500 ("Scale up failed: " ++ err) ∧
    (cs.getLast? = some { event := Event.GetScale ns id, error := some err } ∨
      cs.getLast? = some { event := Event.UpdateScale ns id 1, error := some err })

/-- The reply is 500 with the error of the last call of the handler, which is
a failed `GetScale`. -/
def failedGetScale (ns id : String) (cs : List Call) (resp : Response) : Prop :=
  ∃ err, resp = Response.error 500 ("Scale up failed: " ++ err) ∧
    cs.getLast? = some { event := Event.GetScale ns id, error := some err }

/-- Consistency of the phase of a handler for `path` with the calls `cs` it
has made, all its requests being for deployment `id`. -/
def phaseOk (ns id path : String) (cs : List Call) : Phase → Prop
  | Phase.start => cs = []
  | Phase.query route => routeOf id path route ∧ cs = []
  | Phase.getScale route => routeOf id path route ∧ scaleCount cs = 0
  | Phase.updateScale route scale =>
    routeOf id path route ∧ scale.Replicas = 1 ∧ scaleCount cs = 0
  | Phase.waitStart route => routeOf id path route ∧ scaleOk ns id cs ∧ noFailedScale cs
  | Phase.poll route _ => routeOf id path route ∧ scaleOk ns id cs ∧ noFailedScale cs
  | Phase.sleeping route _ => routeOf id path route ∧ scaleOk ns id cs ∧ noFailedScale cs
  | Phase.mark route => routeOf id path route ∧ scaleOk ns id cs ∧ noFailedScale cs
  | Phase.finished resp =>
    scaleOk ns id cs ∧ (forwarded ns id path cs resp ∨ failedScale ns id cs resp)

/-- Consistency of a handler whose request is for deployment `id`. -/
def threadOk (ns id : String) (t : Thread) : Prop :=
  (∃ route, routeOf id t.path route) ∧ phaseOk ns id t.path t.calls t.phase

/-- The handler has not got past its scale request: it is still before it, or
it has returned because `GetScale` failed. -/
def early (ns id : String) (t : Thread) : Prop :=
  match t.phase with
  | Phase.start => True
  | Phase.query _ => True
  | Phase.getScale _ => True
  | Phase.updateScale _ _ => True
  | Phase.finished resp => failedGetScale ns id t.calls resp
  | _ => False

/-- The cache does not report `id` ready, now or later. -/
def staysUnready {σ : Type} (s : Sys σ) (id : String) : Prop :=
  ∀ t : Int, s.now ≤ t → s.cache.IsReady t id = false

/-- What holds of the handlers and the shared state throughout an execution
that started with all handlers new, `tr0` being the scale requests made
before, and `Cold` marking the states of the environment in which the
deployment is scaled to zero: every handler is consistent; the scale requests
made are those of the handlers; and as long as none has been made, the
deployment is cold, the cache does not report it ready, and no handler has
got past its scale request. -/
def coldInv {σ : Type} (ns id : String) (tr0 : List (String × String × Int))
    (Cold : σ → Prop) (st : List Thread × Sys σ) : Prop :=
  (∀ t ∈ st.1, threadOk ns id t) ∧
    scaleRequests st.2.trace = tr0 ++ List.replicate (totalScale st.1) (ns, id, 1) ∧
    (totalScale st.1 = 0 →
      Cold st.2.world ∧ staysUnready st.2 id ∧ ∀ t ∈ st.1, early ns id t)

/-- The time until the handler is free again, at clock value `now`. -/
def untilWake (wake : Option Int) (now : Int) : Nat :=
  match wake with
  | some w => (w - now).toNat
  | none => 0

/-- A handler for `path` running alone gets from phase `ph` and state `s`, where
it is free, to phase `ph1` and state `s1`, where it is free again. -/
def Reaches {σ : Type} (K : World σ) (ns path : String) (ph : Phase) (s : Sys σ)
    (ph1 : Phase) (s1 : Sys σ) : Prop :=
  ∀ wake calls,
    Thread.blocked { path := path, phase := ph, wake := wake, calls := calls } s.now = false →
    ∃ acts wake1 calls1,
      runOne K ns acts ({ path := path, phase := ph, wake := wake, calls := calls }, s) =
        ({ path := path, phase := ph1, wake := wake1, calls := calls1 }, s1) ∧
      Thread.blocked { path := path, phase := ph1, wake := wake1, calls := calls1 } s1.now = false

/-- The handler, run alone from state `s`, can be brought to return. -/
def finishes {σ : Type} (K : World σ) (ns : String) (t : Thread) (s : Sys σ) : Prop :=
  ∃ acts, (runOne K ns acts (t, s)).1.returned

/-- The time that passes in a schedule. -/
def timePassed : List Action → Nat
  | [] => 0
  | Action.run _ :: rest => timePassed rest
  | Action.tick d :: rest => d + timePassed rest

/-! ## Lemmas on the route pattern -/

theorem stripPrefix_eq_some (p l r : List Char) :
    stripPrefix p l = some r ↔ l = p ++ r := by
  induction p generalizing l with
  | nil => simp [stripPrefix, eq_comm]
  | cons a p ih =>
    cases l with
    | nil => simp [stripPrefix]
    | cons c cs =>
      simp only [stripPrefix, List.cons_append, List.cons.injEq]
      split
      · rename_i h; subst h; simp [ih]
      · rename_i h; simp; intro h2; exact absurd h2.symm h

theorem stripPrefix_append (p r : List Char) : stripPrefix p (p ++ r) = some r :=
  (stripPrefix_eq_some p (p ++ r) r).2 rfl

theorem takeWhile_run (p : Char → Bool) (l r : List Char)
    (hl : l.all p = true) (hr : r = [] ∨ ∃ c t, r = c :: t ∧ p c = false) :
    (l ++ r).takeWhile p = l ∧ (l ++ r).dropWhile p = r := by
  induction l with
  | nil =>
    rcases hr with rfl | ⟨c, t, rfl, hc⟩
    · simp
    · simp [List.takeWhile, List.dropWhile, hc]
  | cons a l ih =>
    simp only [List.all_cons, Bool.and_eq_true] at hl
    have h := ih hl.2
    simp [List.takeWhile, List.dropWhile, hl.1, h.1, h.2]

theorem all_takeWhile (p : Char → Bool) (l : List Char) :
    (l.takeWhile p).all p = true := by
  induction l with
  | nil => simp
  | cons a l ih =>
    by_cases h : p a = true
    · simp [List.takeWhile, h]
    · simp [List.takeWhile, h]

theorem isRouteChar_slash : isRouteChar '/' = false := by decide

/-- Completeness of the matcher on lists of characters. -/
theorem matchRoute_complete (env svc sub : List Char)
    (he : env ≠ []) (hea : env.all isRouteChar = true)
    (hs : svc ≠ []) (hsa : svc.all isRouteChar = true)
    (hsub : sub = [] ∨ ∃ t, sub = '/' :: t ∧ t.all isDotChar = true) :
    matchRoute ("/preview/".data ++ env ++ '/' :: (svc ++ sub)) = some (env, svc, sub) := by
  have h1 := takeWhile_run isRouteChar env ('/' :: (svc ++ sub)) hea
    (Or.inr ⟨'/', svc ++ sub, rfl, isRouteChar_slash⟩)
  have h2 := takeWhile_run isRouteChar svc sub hsa (by
    rcases hsub with rfl | ⟨t, rfl, _⟩
    · exact Or.inl rfl
    · exact Or.inr ⟨'/', t, rfl, isRouteChar_slash⟩)
  unfold matchRoute
  rw [List.append_assoc, stripPrefix_append]
  simp only [h1.1, h1.2, h2.1, h2.2, he, hs, if_false]
  rcases hsub with rfl | ⟨t, rfl, ht⟩
  · rfl
  · simp [ht]

/-- Soundness of the matcher on lists of characters. -/
theorem matchRoute_sound (path env svc sub : List Char)
    (h : matchRoute path = some (env, svc, sub)) :
    path = "/preview/".data ++ env ++ '/' :: (svc ++ sub) ∧
      env ≠ [] ∧ env.all isRouteChar = true ∧
      svc ≠ [] ∧ svc.all isRouteChar = true ∧
      (sub = [] ∨ ∃ t, sub = '/' :: t ∧ t.all isDotChar = true) := by
  unfold matchRoute at h
  split at h
  · exact absurd h (by simp)
  · rename_i r1 hp
    rw [stripPrefix_eq_some] at hp
    dsimp only at h
    split at h
    · exact absurd h (by simp)
    · rename_i hne
      split at h
      · rename_i r2 hd
        split at h
        · exact absurd h (by simp)
        · rename_i hne2
          have key1 := List.takeWhile_append_dropWhile isRouteChar r1
          have key2 := List.takeWhile_append_dropWhile isRouteChar r2
          split at h
          · rename_i hd2
            simp only [Option.some.injEq, Prod.mk.injEq] at h
            obtain ⟨rfl, rfl, rfl⟩ := h
            refine ⟨?_, hne, all_takeWhile _ _, hne2, all_takeWhile _ _, Or.inl rfl⟩
            rw [hp, List.append_assoc]
            congr 1
            calc r1 = List.takeWhile isRouteChar r1 ++ List.dropWhile isRouteChar r1 := key1.symm
              _ = List.takeWhile isRouteChar r1 ++ '/' :: r2 := by rw [hd]
              _ = _ := by rw [← hd2, key2]
          · rename_i t hd2
            split at h
            · rename_i ht
              simp only [Option.some.injEq, Prod.mk.injEq] at h
              obtain ⟨rfl, rfl, rfl⟩ := h
              refine ⟨?_, hne, all_takeWhile _ _, hne2, all_takeWhile _ _,
                Or.inr ⟨t, rfl, ht⟩⟩
              rw [hp, List.append_assoc]
              congr 1
              calc r1 = List.takeWhile isRouteChar r1 ++ List.dropWhile isRouteChar r1 := key1.symm
                _ = List.takeWhile isRouteChar r1 ++ '/' :: r2 := by rw [hd]
                _ = _ := by rw [← hd2, key2]
            · exact absurd h (by simp)
          · exact absurd h (by simp)
      · exact absurd h (by simp)

theorem validSubpath_iff (sub : String) :
    validSubpath sub = true ↔
      (sub.data = [] ∨ ∃ t, sub.data = '/' :: t ∧ t.all isDotChar = true) := by
  unfold validSubpath
  cases h : sub.data with
  | nil => simp
  | cons c t =>
    simp only [Bool.and_eq_true, beq_iff_eq, List.cons.injEq, false_or, reduceCtorEq]
    constructor
    · rintro ⟨rfl, ht⟩
      exact ⟨t, ⟨rfl, rfl⟩, ht⟩
    · rintro ⟨t1, ⟨rfl, rfl⟩, ht⟩
      exact ⟨rfl, ht⟩

theorem data_route (env svc sub : String) :
    ("/preview/" ++ env ++ "/" ++ svc ++ sub).data =
      "/preview/".data ++ env.data ++ '/' :: (svc.data ++ sub.data) := by
  simp [String.data_append]

/-- A path of the route shape is parsed into its three components. -/
theorem parseRoute_complete (env svc sub : String)
    (he : validName env) (hs : validName svc) (hsub : validSubpath sub = true) :
    parseRoute ("/preview/" ++ env ++ "/" ++ svc ++ sub) =
      some { env := env, svc := svc, rest := if sub = "" then "/" else sub } := by
  have hm := matchRoute_complete env.data svc.data sub.data he.1 he.2 hs.1 hs.2
    ((validSubpath_iff sub).1 hsub)
  unfold parseRoute routePattern.FindStringSubmatch
  rw [data_route, hm]

/-- A parsed path has the route shape, and the parse is its components. -/
theorem parseRoute_sound (path : String) (r : Route) (h : parseRoute path = some r) :
    ∃ env svc sub : String, validName env ∧ validName svc ∧ validSubpath sub = true ∧
      path = "/preview/" ++ env ++ "/" ++ svc ++ sub ∧
      r = { env := env, svc := svc, rest := if sub = "" then "/" else sub } := by
  unfold parseRoute routePattern.FindStringSubmatch at h
  cases hm : matchRoute path.data with
  | none => rw [hm] at h; exact absurd h (by simp)
  | some m =>
    obtain ⟨e, sv, rs⟩ := m
    rw [hm] at h
    obtain ⟨hp, h1, h2, h3, h4, h5⟩ := matchRoute_sound _ _ _ _ hm
    refine ⟨String.mk e, String.mk sv, String.mk rs, ⟨h1, h2⟩, ⟨h3, h4⟩,
      (validSubpath_iff _).2 h5, ?_, ?_⟩
    · apply String.ext
      rw [data_route, hp]
    · simp only [Option.some.injEq] at h
      exact h.symm

/-! ## Lemmas on the control-plane helpers -/

theorem scaleRequests_append (a b : List Event) :
    scaleRequests (a ++ b) = scaleRequests a ++ scaleRequests b := by
  induction a with
  | nil => rfl
  | cons e a ih => cases e <;> simp [scaleRequests, ih]

theorem isDeploymentReady_cache {σ : Type} (K : World σ) (ns name : String) (s : Sys σ) :
    (isDeploymentReady K ns name s).2.cache = s.cache := by
  unfold isDeploymentReady
  dsimp only
  split
  · rfl
  · split <;> rfl

theorem isDeploymentReady_trace {σ : Type} (K : World σ) (ns name : String) (s : Sys σ) :
    (isDeploymentReady K ns name s).2.trace = s.trace ++ [Event.Get ns name] := by
  unfold isDeploymentReady
  dsimp only
  split
  · rfl
  · split <;> rfl

theorem isDeploymentReady_now {σ : Type} (K : World σ) (ns name : String) (s : Sys σ) :
    (isDeploymentReady K ns name s).2.now = s.now + (K.Get ns name s.world).2.1 := by
  unfold isDeploymentReady
  dsimp only
  split
  · rfl
  · split <;> rfl

theorem isDeploymentReady_of_ready {σ : Type} (K : World σ) (ns name : String) (s : Sys σ)
    (d : Deployment) (hg : (K.Get ns name s.world).1 = Except.ok d)
    (hd : 1 ≤ d.ReadyReplicas) : (isDeploymentReady K ns name s).1 = true := by
  unfold isDeploymentReady
  dsimp only
  rw [hg]
  have : ¬ d.ReadyReplicas < 1 := by omega
  simp [this]

theorem scaleDeployment_cache {σ : Type} (K : World σ) (ns name : String) (n : Int)
    (s : Sys σ) : (scaleDeployment K ns name n s).2.cache = s.cache := by
  unfold scaleDeployment
  dsimp only
  split <;> rfl

theorem scaleDeployment_trace {σ : Type} (K : World σ) (ns name : String) (n : Int)
    (s : Sys σ) :
    ((scaleDeployment K ns name n s).1 ≠ none ∧
        (scaleDeployment K ns name n s).2.trace = s.trace ++ [Event.GetScale ns name]) ∨
      (scaleDeployment K ns name n s).2.trace =
        s.trace ++ [Event.GetScale ns name, Event.UpdateScale ns name n] := by
  unfold scaleDeployment
  dsimp only
  split
  · left; simp
  · right; simp

theorem waitLoop_done {σ : Type} (K : World σ) (ns name : String) (deadline : Int)
    (s : Sys σ) (h : deadline ≤ s.now) : waitLoop K ns name deadline s = s := by
  rw [waitLoop, if_pos h]

theorem waitLoop_ready {σ : Type} (K : World σ) (ns name : String) (deadline : Int)
    (s : Sys σ) (h : ¬ deadline ≤ s.now) (hr : (isDeploymentReady K ns name s).1 = true) :
    waitLoop K ns name deadline s = (isDeploymentReady K ns name s).2 := by
  rw [waitLoop, if_neg h]
  dsimp only
  rw [if_pos hr]

theorem waitLoop_again {σ : Type} (K : World σ) (ns name : String) (deadline : Int)
    (s : Sys σ) (h : ¬ deadline ≤ s.now) (hr : ¬ (isDeploymentReady K ns name s).1 = true) :
    waitLoop K ns name deadline s =
      waitLoop K ns name deadline (sleep K (3 * Second) (isDeploymentReady K ns name s).2) := by
  rw [waitLoop, if_neg h]
  dsimp only
  rw [if_neg hr]

theorem waitLoop_cache {σ : Type} (K : World σ) (ns name : String) (deadline : Int)
    (s : Sys σ) : (waitLoop K ns name deadline s).cache = s.cache := by
  refine waitLoop.induct K ns name deadline
    (fun s => (waitLoop K ns name deadline s).cache = s.cache) ?_ ?_ ?_ s
  · intro x hx
    rw [waitLoop_done K ns name deadline x hx]
  · intro x hx r hr
    rw [waitLoop_ready K ns name deadline x hx hr]
    exact isDeploymentReady_cache K ns name x
  · intro x hx r hr ih
    rw [waitLoop_again K ns name deadline x hx hr, ih]
    exact isDeploymentReady_cache K ns name x

theorem waitLoop_scaleRequests {σ : Type} (K : World σ) (ns name : String) (deadline : Int)
    (s : Sys σ) :
    scaleRequests (waitLoop K ns name deadline s).trace = scaleRequests s.trace := by
  refine waitLoop.induct K ns name deadline
    (fun s => scaleRequests (waitLoop K ns name deadline s).trace = scaleRequests s.trace)
    ?_ ?_ ?_ s
  · intro x hx
    rw [waitLoop_done K ns name deadline x hx]
  · intro x hx r hr
    rw [waitLoop_ready K ns name deadline x hx hr, isDeploymentReady_trace,
      scaleRequests_append]
    simp [scaleRequests]
  · intro x hx r hr ih
    rw [waitLoop_again K ns name deadline x hx hr, ih]
    simp only [sleep]
    rw [scaleRequests_append, isDeploymentReady_trace, scaleRequests_append]
    simp [scaleRequests]

/-! ## Lemmas on the deployment name -/

theorem sep_overlap (a s1 s2 : List Char)
    (h : "-ecosystem-".data ++ s1 = a ++ ("-ecosystem-".data ++ s2)) :
    a = [] ∨ ("-ecosystem".data <+: a ∧ "ecosystem-".data <:+: s1) := by
  rcases a with _ | ⟨c0, _ | ⟨c1, _ | ⟨c2, _ | ⟨c3, _ | ⟨c4, _ | ⟨c5, _ | ⟨c6, _ | ⟨c7,
    _ | ⟨c8, _ | ⟨c9, a⟩⟩⟩⟩⟩⟩⟩⟩⟩⟩
  · exact Or.inl rfl
  all_goals
    try (simp at h)
  right
  obtain ⟨rfl, rfl, rfl, rfl, rfl, rfl, rfl, rfl, rfl, rfl, h⟩ := h
  refine ⟨⟨a, rfl⟩, ?_⟩
  rcases a with _ | ⟨c, a⟩
  · simp at h
    subst h
    exact ⟨[], s2, by simp⟩
  · simp at h
    obtain ⟨rfl, rfl⟩ := h
    exact ⟨a ++ ['-'], s2, by simp⟩

theorem serviceName_data (env svc : String) :
    (serviceName env svc).data = env.data ++ ("-ecosystem-".data ++ svc.data) := by
  simp [serviceName, String.data_append]

theorem collision_half (e1 s1 e2 s2 : String) (a : List Char)
    (he : e2.data = e1.data ++ a)
    (hs : "-ecosystem-".data ++ s1.data = a ++ ("-ecosystem-".data ++ s2.data)) :
    (e1 = e2 ∧ s1 = s2) ∨ (containsDashEcosystem e2 ∧ containsEcosystemDash s1) := by
  rcases sep_overlap a s1.data s2.data hs with rfl | ⟨hp, hi⟩
  · left
    rw [List.append_nil] at he
    rw [List.nil_append] at hs
    exact ⟨String.ext he.symm, String.ext (List.append_cancel_left hs)⟩
  · right
    refine ⟨?_, hi⟩
    unfold containsDashEcosystem
    rw [he]
    obtain ⟨r, hr⟩ := hp
    exact ⟨e1.data, r, by rw [← hr]; simp⟩

/-- Two pairs with the same deployment name are equal, or the environment of
one contains `-ecosystem` and the service of the other contains `ecosystem-`. -/
theorem serviceName_collision (e1 s1 e2 s2 : String)
    (h : serviceName e1 s1 = serviceName e2 s2) :
    (e1 = e2 ∧ s1 = s2) ∨ (containsDashEcosystem e2 ∧ containsEcosystemDash s1) ∨
      (containsDashEcosystem e1 ∧ containsEcosystemDash s2) := by
  have hd : (serviceName e1 s1).data = (serviceName e2 s2).data := by rw [h]
  rw [serviceName_data, serviceName_data, List.append_eq_append_iff] at hd
  rcases hd with ⟨a, he, hs⟩ | ⟨a, he, hs⟩
  · rcases collision_half e1 s1 e2 s2 a he hs with h1 | h1
    · exact Or.inl h1
    · exact Or.inr (Or.inl h1)
  · rcases collision_half e2 s2 e1 s1 a he hs with h1 | h1
    · exact Or.inl ⟨h1.1.symm, h1.2.symm⟩
    · exact Or.inr (Or.inr h1)

/-! ## Lemmas on the readiness cache -/

theorem markAll_expiry (later : List (String × Int)) (c : readinessCache) :
    (markAll c later).expiry = c.expiry := by
  induction later generalizing c with
  | nil => rfl
  | cons op later ih =>
    simp only [markAll, List.foldl_cons] at ih ⊢
    rw [ih]
    rfl

theorem markAll_other (later : List (String × Int)) (c : readinessCache) (id : String)
    (hno : ∀ op ∈ later, op.1 ≠ id) : (markAll c later).cache id = c.cache id := by
  induction later generalizing c with
  | nil => rfl
  | cons op later ih =>
    simp only [markAll, List.foldl_cons] at ih ⊢
    rw [ih _ (fun o ho => hno o (List.mem_cons_of_mem _ ho))]
    have h1 : id ≠ op.1 := fun h => hno op (List.mem_cons_self _ _) h.symm
    simp [readinessCache.MarkReady, h1]

theorem Since_lt_iff (now t d : Int) (hle : t ≤ now) (hd : d ≤ maxDuration) :
    Since now t < d ↔ now - t < d := by
  unfold Since
  have hmin : minDuration < 0 := by decide
  split
  · omega
  · split <;> omega

theorem IsReady_MarkReady (c : readinessCache) (id : String) (t now : Int)
    (hle : t ≤ now) (hd : c.expiry ≤ maxDuration) :
    (c.MarkReady t id).IsReady now id = decide (now - t < c.expiry) := by
  simp [readinessCache.IsReady, readinessCache.MarkReady, Since_lt_iff now t c.expiry hle hd]

/-! ## The deployment name (C1) -/

/-- C1 as stated fails: the pairs `(a-ecosystem-b, c)` and `(a, b-ecosystem-c)`
are made of non-empty names over `[a-z0-9-]`, differ, and get the same
deployment name `a-ecosystem-b-ecosystem-c`. -/
theorem serviceName_not_injective :
    validName "a-ecosystem-b" ∧ validName "c" ∧ validName "a" ∧ validName "b-ecosystem-c" ∧
      ("a-ecosystem-b", "c") ≠ ("a", "b-ecosystem-c") ∧
      serviceName "a-ecosystem-b" "c" = serviceName "a" "b-ecosystem-c" ∧
      serviceName "a" "b-ecosystem-c" = "a-ecosystem-b-ecosystem-c" := by
  decide

/-- C1, amended: unless the environment of one pair contains `-ecosystem` and
the service of the other pair contains `ecosystem-`, two pairs get the same
deployment name exactly when they are equal; so equal pairs give equal names,
and distinct pairs give distinct names. -/
theorem serviceName_injective_amended (env1 svc1 env2 svc2 : String)
    (h12 : ¬ (containsDashEcosystem env1 ∧ containsEcosystemDash svc2))
    (h21 : ¬ (containsDashEcosystem env2 ∧ containsEcosystemDash svc1)) :
    serviceName env1 svc1 = serviceName env2 svc2 ↔ (env1 = env2 ∧ svc1 = svc2) := by
  constructor
  · intro h
    rcases serviceName_collision env1 svc1 env2 svc2 h with h1 | h1 | h1
    · exact h1
    · exact absurd h1 h21
    · exact absurd h1 h12
  · rintro ⟨rfl, rfl⟩
    rfl

/-- The amended C1 at the pairs `(demo, api)` and `(demo-2, api)`. -/
theorem serviceName_injective_amended_witness :
    ¬ (containsDashEcosystem "demo" ∧ containsEcosystemDash "api") ∧
      ¬ (containsDashEcosystem "demo-2" ∧ containsEcosystemDash "api") ∧
      (serviceName "demo" "api" = serviceName "demo-2" "api" ↔
        ("demo" = "demo-2" ∧ "api" = "api")) :=
  ⟨by decide, by decide,
    serviceName_injective_amended "demo" "api" "demo-2" "api" (by decide) (by decide)⟩

/-! ## The route parser (C3) -/

/-- C3 as stated fails: with environment `a`, service `b` and the subpath made
of `/x`, a line feed and `y` (it starts with `/`), the path has the shape the
claim names, and the parser rejects it, because `.` does not match a line
feed. -/
theorem parseRoute_rejects_line_feed :
    validName "a" ∧ validName "b" ∧ "/x\ny".data.head? = some '/' ∧
      parseRoute ("/preview/" ++ "a" ++ "/" ++ "b" ++ "/x\ny") = none := by
  decide

/-- C3, amended: for non-empty `env` and `svc` over `[a-z0-9-]` and a subpath
that is empty or is a `/` followed by characters other than the line feed, the
parser recovers `(env, svc, subpath)` from `/preview/env/svc` followed by the
subpath, an empty subpath being reported as `/`; and a path that is not of
that shape is rejected. -/
theorem parseRoute_spec :
    (∀ env svc sub : String, validName env → validName svc → validSubpath sub = true →
      parseRoute ("/preview/" ++ env ++ "/" ++ svc ++ sub) =
        some { env := env, svc := svc, rest := if sub = "" then "/" else sub }) ∧
    (∀ path : String,
      (¬ ∃ env svc sub : String, validName env ∧ validName svc ∧ validSubpath sub = true ∧
        path = "/preview/" ++ env ++ "/" ++ svc ++ sub) →
      parseRoute path = none) := by
  refine ⟨parseRoute_complete, ?_⟩
  intro path hno
  cases h : parseRoute path with
  | none => rfl
  | some r =>
    obtain ⟨env, svc, sub, he, hs, hsub, hp, _⟩ := parseRoute_sound path r h
    exact absurd ⟨env, svc, sub, he, hs, hsub, hp⟩ hno

/-- The amended C3 at `/preview/demo/api/v1/users` and at `/preview/demo/api`. -/
theorem parseRoute_spec_witness :
    parseRoute ("/preview/" ++ "demo" ++ "/" ++ "api" ++ "/v1/users") =
        some { env := "demo", svc := "api", rest := "/v1/users" } ∧
      parseRoute ("/preview/" ++ "demo" ++ "/" ++ "api" ++ "") =
        some { env := "demo", svc := "api", rest := "/" } :=
  ⟨parseRoute_spec.1 "demo" "api" "/v1/users" (by decide) (by decide) (by decide),
    parseRoute_spec.1 "demo" "api" "" (by decide) (by decide) (by decide)⟩

/-! ## The readiness cache (C4) -/

/-- C4: with an expiry that is a `time.Duration`, after `MarkReady(id)` at time
`t` and any later `MarkReady` calls for other identifiers, `IsReady(id)` at a
time `t1 ≥ t` is true exactly when `t1 - t` is below the expiry. In particular,
for a positive expiry it is true right after the marking, it is false once
the expiry has elapsed, and it is true again right after a new
`MarkReady(id)`. -/
theorem cache_ttl (c : readinessCache) (id : String) (t t1 : Int)
    (later : List (String × Int))
    (hexp : c.expiry ≤ maxDuration) (hle : t ≤ t1) (hno : ∀ op ∈ later, op.1 ≠ id) :
    ((markAll (c.MarkReady t id) later).IsReady t1 id = true ↔ t1 - t < c.expiry) ∧
      (0 < c.expiry → (c.MarkReady t id).IsReady t id = true) ∧
      (c.expiry ≤ t1 - t → (markAll (c.MarkReady t id) later).IsReady t1 id = false) ∧
      (0 < c.expiry →
        ((markAll (c.MarkReady t id) later).MarkReady t1 id).IsReady t1 id = true) := by
  have key : (markAll (c.MarkReady t id) later).IsReady t1 id = decide (t1 - t < c.expiry) := by
    have h1 := markAll_other later (c.MarkReady t id) id hno
    have h2 := markAll_expiry later (c.MarkReady t id)
    have h3 := IsReady_MarkReady c id t t1 hle hexp
    unfold readinessCache.IsReady at h3 ⊢
    rw [h1, h2]
    exact h3
  refine ⟨?_, ?_, ?_, ?_⟩
  · rw [key]; simp
  · intro hpos
    rw [IsReady_MarkReady c id t t (le_refl t) hexp]
    simpa using hpos
  · intro hel
    rw [key]
    simpa using hel
  · intro hpos
    have h2 : (markAll (c.MarkReady t id) later).expiry = c.expiry :=
      markAll_expiry later (c.MarkReady t id)
    rw [IsReady_MarkReady _ id t1 t1 (le_refl t1) (by rw [h2]; exact hexp), h2]
    simpa using hpos

/-- C4 at the package cache (five minutes): marked at time 0, with another
identifier marked later, `demo-ecosystem-api` is ready after four minutes and
not after five. -/
theorem cache_ttl_witness :
    ((markAll (cache.MarkReady 0 "demo-ecosystem-api") [("demo-ecosystem-web", Minute)]).IsReady
        (4 * Minute) "demo-ecosystem-api" = true ↔ 4 * Minute - 0 < cache.expiry) ∧
      (cache.MarkReady 0 "demo-ecosystem-api").IsReady (4 * Minute) "demo-ecosystem-api" = true ∧
      (cache.MarkReady 0 "demo-ecosystem-api").IsReady (5 * Minute) "demo-ecosystem-api" = false :=
  ⟨(cache_ttl cache "demo-ecosystem-api" 0 (4 * Minute) [("demo-ecosystem-web", Minute)]
      (by decide) (by decide) (by decide)).1, by decide, by decide⟩

/-! ## The handler on a single request (C5 to C9) -/

theorem parseRoute_eq_none (path : String)
    (h : routePattern.FindStringSubmatch path = none) : parseRoute path = none := by
  unfold parseRoute
  rw [h]

/-- C6: when the path does not match the route pattern, the handler answers
400 and leaves everything as it was: no call is recorded, the cache and the
environment are untouched, and nothing is forwarded. -/
theorem invalid_path_rejected {σ : Type} (K : World σ) (ns path : String) (s : Sys σ)
    (h : routePattern.FindStringSubmatch path = none) :
    activatorHandler K ns path s = (Response.error 400 "Invalid path", s) := by
  unfold activatorHandler
  rw [parseRoute_eq_none path h]

/-- C6 at `/preview/DEMO`. -/
theorem invalid_path_rejected_witness :
    routePattern.FindStringSubmatch "/preview/DEMO" = none ∧
      activatorHandler (cluster 2) defaultNamespace "/preview/DEMO" (initial 0 none) =
        (Response.error 400 "Invalid path", initial 0 none) :=
  ⟨by decide, invalid_path_rejected (cluster 2) defaultNamespace "/preview/DEMO"
    (initial 0 none) (by decide)⟩

theorem activatorHandler_cached {σ : Type} (K : World σ) (ns path : String) (s : Sys σ)
    (route : Route) (hr : parseRoute path = some route)
    (hc : s.cache.IsReady s.now (serviceName route.env route.svc) = true) :
    activatorHandler K ns path s =
      (Response.proxied (fqdn (serviceName route.env route.svc) ns) route.rest, s) := by
  unfold activatorHandler
  rw [hr]
  simp [hc]

/-- C8: when the cache reports the deployment ready, the handler forwards the
request and leaves everything as it was: no call is recorded and the cache,
the timestamp of the entry included, is unchanged. -/
theorem cached_ready_forwards {σ : Type} (K : World σ) (ns path : String) (s : Sys σ)
    (route : Route) (hr : parseRoute path = some route)
    (hc : s.cache.IsReady s.now (serviceName route.env route.svc) = true) :
    activatorHandler K ns path s =
      (Response.proxied (fqdn (serviceName route.env route.svc) ns) route.rest, s) :=
  activatorHandler_cached K ns path s route hr hc

/-- C8 one minute after `demo-ecosystem-api` was marked ready. -/
theorem cached_ready_forwards_witness :
    activatorHandler (cluster 2) defaultNamespace "/preview/demo/api/v1/users"
        { cache := cache.MarkReady 0 "demo-ecosystem-api", now := Minute, world := none,
          trace := [] } =
      (Response.proxied "demo-ecosystem-api.preview.svc.cluster.local" "/v1/users",
        { cache := cache.MarkReady 0 "demo-ecosystem-api", now := Minute, world := none,
          trace := [] }) :=
  cached_ready_forwards (cluster 2) defaultNamespace "/preview/demo/api/v1/users"
    { cache := cache.MarkReady 0 "demo-ecosystem-api", now := Minute, world := none,
      trace := [] }
    { env := "demo", svc := "api", rest := "/v1/users" } (by decide) (by decide)

/-- C7: when the cache does not report the deployment ready and the first
`Get` returns a deployment with at least one ready replica, the handler makes
that one call and no other (no scale request, no polling, no sleep), marks the
deployment ready at the time the call returned, and forwards the request. -/
theorem warm_backend_forwards {σ : Type} (K : World σ) (ns path : String) (s : Sys σ)
    (route : Route) (d : Deployment) (hr : parseRoute path = some route)
    (hc : s.cache.IsReady s.now (serviceName route.env route.svc) = false)
    (hg : (K.Get ns (serviceName route.env route.svc) s.world).1 = Except.ok d)
    (hd : 1 ≤ d.ReadyReplicas) :
    (activatorHandler K ns path s).1 =
        Response.proxied (fqdn (serviceName route.env route.svc) ns) route.rest ∧
      (activatorHandler K ns path s).2.trace =
        s.trace ++ [Event.Get ns (serviceName route.env route.svc)] ∧
      (activatorHandler K ns path s).2.now =
        s.now + (K.Get ns (serviceName route.env route.svc) s.world).2.1 ∧
      (activatorHandler K ns path s).2.cache =
        s.cache.MarkReady (activatorHandler K ns path s).2.now
          (serviceName route.env route.svc) := by
  have hready := isDeploymentReady_of_ready K ns (serviceName route.env route.svc) s d hg hd
  unfold activatorHandler
  rw [hr]
  simp only [hc, hready, Bool.not_false, Bool.not_true, if_true]
  refine ⟨rfl, ?_, ?_, ?_⟩
  · exact isDeploymentReady_trace K ns _ s
  · exact isDeploymentReady_now K ns _ s
  · simp [isDeploymentReady_cache]

/-- C7 on a cluster whose deployment is up while the cache is empty. -/
theorem warm_backend_forwards_witness :
    (activatorHandler (cluster 2) defaultNamespace "/preview/demo/api" (initial 0 (some 0))).1 =
        Response.proxied "demo-ecosystem-api.preview.svc.cluster.local" "/" ∧
      (activatorHandler (cluster 2) defaultNamespace "/preview/demo/api"
          (initial 0 (some 0))).2.trace =
        [Event.Get "preview" "demo-ecosystem-api"] :=
  have h := warm_backend_forwards (cluster 2) defaultNamespace "/preview/demo/api"
    (initial 0 (some 0)) { env := "demo", svc := "api", rest := "/" } { ReadyReplicas := 1 }
    (by decide) (by decide) rfl (by decide)
  ⟨h.1, h.2.1⟩

/-- C5: when the cache does not report the deployment ready, the readiness
query says not ready and the scale request fails (at `GetScale` or at
`UpdateScale`), the handler answers 500, leaves the cache as it was, and its
calls are the readiness query followed by the calls of the failed scale
request: nothing is polled and nothing is forwarded. -/
theorem scale_failure_500 {σ : Type} (K : World σ) (ns path : String) (s : Sys σ)
    (route : Route) (err : String) (hr : parseRoute path = some route)
    (hc : s.cache.IsReady s.now (serviceName route.env route.svc) = false)
    (hq : (isDeploymentReady K ns (serviceName route.env route.svc) s).1 = false)
    (hs : (scaleDeployment K ns (serviceName route.env route.svc) 1
      (isDeploymentReady K ns (serviceName route.env route.svc) s).2).1 = some err) :
    (activatorHandler K ns path s).1 = Response.error 500 ("Scale up failed: " ++ err) ∧
      (activatorHandler K ns path s).2.cache = s.cache ∧
      ((activatorHandler K ns path s).2.trace =
          s.trace ++ [Event.Get ns (serviceName route.env route.svc),
            Event.GetScale ns (serviceName route.env route.svc)] ∨
        (activatorHandler K ns path s).2.trace =
          s.trace ++ [Event.Get ns (serviceName route.env route.svc),
            Event.GetScale ns (serviceName route.env route.svc),
            Event.UpdateScale ns (serviceName route.env route.svc) 1]) := by
  unfold activatorHandler
  rw [hr]
  simp only [hc, hq, Bool.not_false, if_true]
  rw [hs]
  refine ⟨rfl, ?_, ?_⟩
  · simp only [scaleDeployment_cache, isDeploymentReady_cache]
  · rcases scaleDeployment_trace K ns (serviceName route.env route.svc) 1
      (isDeploymentReady K ns (serviceName route.env route.svc) s).2 with ⟨_, h⟩ | h
    · left
      simp only [h, isDeploymentReady_trace, List.append_assoc, List.singleton_append]
    · right
      simp only [h, isDeploymentReady_trace, List.append_assoc, List.singleton_append]

/-- C5 on a cluster that refuses every scale request. -/
theorem scale_failure_500_witness :
    (activatorHandler rejectingCluster defaultNamespace "/preview/demo/api" (initial 0 ())).1 =
        Response.error 500 "Scale up failed: quota exceeded" ∧
      (activatorHandler rejectingCluster defaultNamespace "/preview/demo/api"
          (initial 0 ())).2.cache = cache :=
  have h := scale_failure_500 rejectingCluster defaultNamespace "/preview/demo/api"
    (initial 0 ()) { env := "demo", svc := "api", rest := "/" } "quota exceeded"
    (by decide) (by decide) (by decide) (by decide)
  ⟨h.1, h.2.1⟩

/-- The handler on a cold deployment whose scale request succeeds: whatever the
polling sees, the request is forwarded, the deployment is marked ready at the
time the wait ended, and the scale requests made are exactly one. -/
theorem activatorHandler_cold {σ : Type} (K : World σ) (ns path : String) (s : Sys σ)
    (route : Route) (hr : parseRoute path = some route)
    (hc : s.cache.IsReady s.now (serviceName route.env route.svc) = false)
    (hq : (isDeploymentReady K ns (serviceName route.env route.svc) s).1 = false)
    (hs : (scaleDeployment K ns (serviceName route.env route.svc) 1
      (isDeploymentReady K ns (serviceName route.env route.svc) s).2).1 = none) :
    (activatorHandler K ns path s).1 =
        Response.proxied (fqdn (serviceName route.env route.svc) ns) route.rest ∧
      (activatorHandler K ns path s).2.cache =
        s.cache.MarkReady (activatorHandler K ns path s).2.now
          (serviceName route.env route.svc) ∧
      scaleRequests (activatorHandler K ns path s).2.trace =
        scaleRequests s.trace ++ [(ns, serviceName route.env route.svc, 1)] := by
  unfold activatorHandler
  rw [hr]
  simp only [hc, hq, Bool.not_false, if_true]
  rw [hs]
  refine ⟨rfl, ?_, ?_⟩
  · simp only [waitForDeployment, waitLoop_cache, scaleDeployment_cache,
      isDeploymentReady_cache]
  · simp only [waitForDeployment, waitLoop_scaleRequests]
    rcases scaleDeployment_trace K ns (serviceName route.env route.svc) 1
      (isDeploymentReady K ns (serviceName route.env route.svc) s).2 with ⟨h, _⟩ | h
    · exact absurd hs h
    · rw [h, isDeploymentReady_trace, scaleRequests_append, scaleRequests_append]
      simp [scaleRequests]

/-- C9: for a path `/preview/env/svc` followed by a subpath, handled against a
deployment that the cache does not report ready, that the readiness query
reports not ready and whose scale request succeeds, the handler issues exactly
one scale request, with arguments `(namespace, env-ecosystem-svc, 1)`, and
forwards the request to host `env-ecosystem-svc.namespace.svc.cluster.local`
with the subpath as path (`/` when the subpath is empty). This holds whatever
the polling sees, so in particular when the deployment becomes ready after
the scale request. -/
theorem cold_start_scales_once {σ : Type} (K : World σ) (ns env svc sub : String)
    (s : Sys σ) (he : validName env) (hv : validName svc) (hsub : validSubpath sub = true)
    (hc : s.cache.IsReady s.now (env ++ "-ecosystem-" ++ svc) = false)
    (hq : (isDeploymentReady K ns (env ++ "-ecosystem-" ++ svc) s).1 = false)
    (hs : (scaleDeployment K ns (env ++ "-ecosystem-" ++ svc) 1
      (isDeploymentReady K ns (env ++ "-ecosystem-" ++ svc) s).2).1 = none) :
    (activatorHandler K ns ("/preview/" ++ env ++ "/" ++ svc ++ sub) s).1 =
        Response.proxied (env ++ "-ecosystem-" ++ svc ++ "." ++ ns ++ ".svc.cluster.local")
          (if sub = "" then "/" else sub) ∧
      scaleRequests (activatorHandler K ns ("/preview/" ++ env ++ "/" ++ svc ++ sub) s).2.trace =
        scaleRequests s.trace ++ [(ns, env ++ "-ecosystem-" ++ svc, 1)] := by
  have h := activatorHandler_cold K ns ("/preview/" ++ env ++ "/" ++ svc ++ sub) s
    { env := env, svc := svc, rest := if sub = "" then "/" else sub }
    (parseRoute_complete env svc sub he hv hsub) hc hq hs
  exact ⟨h.1, h.2.2⟩

/-- C9 at `/preview/demo/api/v1/users` in namespace `preview`, on a cluster
whose deployment is ready at the third query after the scale-up. -/
theorem cold_start_scales_once_witness :
    (activatorHandler (cluster 2) "preview"
        ("/preview/" ++ "demo" ++ "/" ++ "api" ++ "/v1/users") (initial 0 none)).1 =
        Response.proxied "demo-ecosystem-api.preview.svc.cluster.local" "/v1/users" ∧
      scaleRequests (activatorHandler (cluster 2) "preview"
        ("/preview/" ++ "demo" ++ "/" ++ "api" ++ "/v1/users") (initial 0 none)).2.trace =
        [("preview", "demo-ecosystem-api", 1)] :=
  cold_start_scales_once (cluster 2) "preview" "demo" "api" "/v1/users" (initial 0 none)
    (by decide) (by decide) (by decide) (by decide) (by decide) (by decide)

/-! ## The wait that times out (C2) -/

/-- On the sample cluster, a wait that starts `m` polling rounds before the
deadline, with the deployment at least `m` queries away from ready, runs to
the deadline and leaves the deployment not ready. -/
theorem waitLoop_cluster_cold (n : Nat) (ns name : String) (c : readinessCache)
    (deadline : Int) :
    ∀ (m : Nat) (t : Int) (k : Nat) (tr : List Event), m ≤ k →
      deadline - t = 3 * Second * m →
      ∃ tr1, waitLoop (cluster n) ns name deadline
          { cache := c, now := t, world := some k, trace := tr } =
        { cache := c, now := deadline, world := some (k - m), trace := tr1 } := by
  intro m
  induction m with
  | zero =>
    intro t k tr _ hd
    have ht : t = deadline := by simp at hd; omega
    subst ht
    exact ⟨tr, waitLoop_done _ _ _ _ _ (le_refl _)⟩
  | succ m ih =>
    intro t k tr hk hd
    obtain ⟨k1, rfl⟩ : ∃ k1, k = k1 + 1 := ⟨k - 1, by omega⟩
    have hnot : ¬ deadline ≤ t := by
      have : (0 : Int) < 3 * Second * ((m + 1 : Nat) : Int) := by
        simp only [Second]; push_cast; omega
      omega
    have hr : ¬ (isDeploymentReady (cluster n) ns name
        { cache := c, now := t, world := some (k1 + 1), trace := tr }).1 = true := by
      simp [isDeploymentReady, cluster]
    rw [waitLoop_again _ _ _ _ _ hnot hr]
    have hstep : sleep (cluster n) (3 * Second) (isDeploymentReady (cluster n) ns name
        { cache := c, now := t, world := some (k1 + 1), trace := tr }).2 =
        { cache := c, now := t + 3 * Second, world := some k1,
          trace := tr ++ [Event.Get ns name] ++ [Event.Sleep (3 * Second)] } := by
      simp [isDeploymentReady, cluster, sleep]
    rw [hstep]
    have hd1 : deadline - (t + 3 * Second) = 3 * Second * (m : Int) := by
      simp only [Second] at hd ⊢; push_cast at hd; omega
    obtain ⟨tr1, h1⟩ := ih (t + 3 * Second) k1 _ (by omega) hd1
    refine ⟨tr1, ?_⟩
    rw [h1]
    have : k1 + 1 - (m + 1) = k1 - m := by omega
    rw [this]

/-- C2, the code at the failing input: a first request for `/preview/demo/api`
on a cluster whose deployment needs a hundred polls (five minutes) to become
ready. The scale request succeeds, the wait ends at its deadline of 120 s
with the deployment still sixty polls away from ready, and nevertheless the
handler forwards the request and marks the deployment ready: the cache
reports it ready, and the next request makes no call at all. -/
theorem timeout_still_marks_ready :
    (activatorHandler (cluster 100) "preview" "/preview/demo/api" (initial 0 none)).1 =
        Response.proxied "demo-ecosystem-api.preview.svc.cluster.local" "/" ∧
      (activatorHandler (cluster 100) "preview" "/preview/demo/api" (initial 0 none)).2.now =
        120 * Second ∧
      (activatorHandler (cluster 100) "preview" "/preview/demo/api" (initial 0 none)).2.world =
        some 60 ∧
      (activatorHandler (cluster 100) "preview" "/preview/demo/api"
        (initial 0 none)).2.cache.IsReady (120 * Second) "demo-ecosystem-api" = true ∧
      (activatorHandler (cluster 100) "preview" "/preview/demo/api"
        (activatorHandler (cluster 100) "preview" "/preview/demo/api"
          (initial 0 none)).2).2.trace =
        (activatorHandler (cluster 100) "preview" "/preview/demo/api"
          (initial 0 none)).2.trace := by
  have hr : parseRoute "/preview/demo/api" = some { env := "demo", svc := "api", rest := "/" } := by
    decide
  obtain ⟨tr1, hw⟩ := waitLoop_cluster_cold 100 "preview" "demo-ecosystem-api" cache
    (120 * Second) 40 0 100
    [Event.Get "preview" "demo-ecosystem-api", Event.GetScale "preview" "demo-ecosystem-api",
      Event.UpdateScale "preview" "demo-ecosystem-api" 1] (by decide) (by decide)
  have hout : activatorHandler (cluster 100) "preview" "/preview/demo/api" (initial 0 none) =
      (Response.proxied "demo-ecosystem-api.preview.svc.cluster.local" "/",
        { cache := cache.MarkReady (120 * Second) "demo-ecosystem-api", now := 120 * Second,
          world := some 60, trace := tr1 }) := by
    unfold activatorHandler
    rw [hr]
    have h1 : (initial 0 (none : Option Nat)).cache.IsReady (initial 0 (none : Option Nat)).now
        (serviceName "demo" "api") = false := by decide
    have h2 : isDeploymentReady (cluster 100) "preview" (serviceName "demo" "api")
        (initial 0 none) =
        (false, { cache := cache, now := 0, world := none,
                  trace := [Event.Get "preview" "demo-ecosystem-api"] }) := rfl
    have h3 : scaleDeployment (cluster 100) "preview" (serviceName "demo" "api") 1
        { cache := cache, now := 0, world := none,
          trace := [Event.Get "preview" "demo-ecosystem-api"] } =
        (none, { cache := cache, now := 0, world := some 100,
                 trace := [Event.Get "preview" "demo-ecosystem-api",
                   Event.GetScale "preview" "demo-ecosystem-api",
                   Event.UpdateScale "preview" "demo-ecosystem-api" 1] }) := rfl
    have h4 : serviceName "demo" "api" = "demo-ecosystem-api" := by decide
    simp only [h1, h2, h3, Bool.not_false, if_true, waitForDeployment]
    rw [h4, show (0 : Int) + 120 * Second = 120 * Second from by decide, hw]
    rfl
  have hmark : (cache.MarkReady (120 * Second) "demo-ecosystem-api").IsReady (120 * Second)
      (serviceName "demo" "api") = true := by decide
  rw [hout]
  refine ⟨rfl, rfl, rfl, hmark, ?_⟩
  rw [activatorHandler_cached (cluster 100) "preview" "/preview/demo/api" _
    { env := "demo", svc := "api", rest := "/" } hr hmark]

/-! ## Concurrent requests (C10) -/

theorem isDeploymentReady_fst {σ : Type} (K : World σ) (ns name : String) (s : Sys σ) :
    (isDeploymentReady K ns name s).1 = reportsReady (K.Get ns name s.world).1 := by
  unfold isDeploymentReady reportsReady
  dsimp only
  split
  · rfl
  · split <;> rfl

theorem scaleCount_append (a b : List Call) :
    scaleCount (a ++ b) = scaleCount a + scaleCount b := by
  simp [scaleCount, List.filter_append]

theorem scaleCount_zero_mem (cs : List Call) (h : scaleCount cs = 0) :
    ∀ c ∈ cs, c.isScale = false := by
  intro c hc
  unfold scaleCount at h
  rw [List.length_eq_zero, List.filter_eq_nil_iff] at h
  simpa using h c hc

theorem scaleOk_of_zero (ns id : String) (cs : List Call) (h : scaleCount cs = 0) :
    scaleOk ns id cs ∧ noFailedScale cs := by
  have hm := scaleCount_zero_mem cs h
  refine ⟨⟨by omega, ?_⟩, ?_⟩
  · intro c hc hs
    rw [hm c hc] at hs
    exact absurd hs (by simp)
  · intro c hc hs
    rw [hm c hc] at hs
    exact absurd hs (by simp)

theorem scaleOk_append_plain (ns id : String) (cs : List Call) (c : Call)
    (hc : c.isScale = false) (h : scaleOk ns id cs ∧ noFailedScale cs) :
    scaleOk ns id (cs ++ [c]) ∧ noFailedScale (cs ++ [c]) := by
  obtain ⟨⟨h1, h2⟩, h3⟩ := h
  refine ⟨⟨?_, ?_⟩, ?_⟩
  · rw [scaleCount_append]
    simp [scaleCount, hc]
    exact h1
  · intro d hd hs
    rcases List.mem_append.1 hd with hd | hd
    · exact h2 d hd hs
    · simp only [List.mem_singleton] at hd
      subst hd
      rw [hc] at hs
      exact absurd hs (by simp)
  · intro d hd hs
    rcases List.mem_append.1 hd with hd | hd
    · exact h3 d hd hs
    · simp only [List.mem_singleton] at hd
      subst hd
      rw [hc] at hs
      exact absurd hs (by simp)

theorem scaleOk_append_scale (ns id : String) (cs : List Call) (err : Option String)
    (h : scaleCount cs = 0) :
    scaleOk ns id (cs ++ [{ event := Event.UpdateScale ns id 1, error := err }]) := by
  have hm := scaleCount_zero_mem cs h
  refine ⟨?_, ?_⟩
  · rw [scaleCount_append, h]
    simp [scaleCount, Call.isScale]
  · intro d hd hs
    rcases List.mem_append.1 hd with hd | hd
    · rw [hm d hd] at hs
      exact absurd hs (by simp)
    · simp only [List.mem_singleton] at hd
      subst hd
      rfl

theorem noFailedScale_append_scale (ns id : String) (cs : List Call)
    (h : scaleCount cs = 0) :
    noFailedScale (cs ++ [{ event := Event.UpdateScale ns id 1, error := none }]) := by
  have hm := scaleCount_zero_mem cs h
  intro d hd hs
  rcases List.mem_append.1 hd with hd | hd
  · rw [hm d hd] at hs
    exact absurd hs (by simp)
  · simp only [List.mem_singleton] at hd
    subst hd
    rfl

theorem stepThread_now {σ : Type} (K : World σ) (ns path : String) (ph : Phase) (s : Sys σ) :
    (stepThread K ns path ph s).sys.now = s.now := by
  cases ph <;> simp only [stepThread] <;> repeat' split
  all_goals rfl

theorem stepThread_ok {σ : Type} (K : World σ) (ns id path : String) (cs : List Call)
    (ph : Phase) (s : Sys σ) (hp : ∃ route, routeOf id path route)
    (h : phaseOk ns id path cs ph) :
    phaseOk ns id path (cs ++ (stepThread K ns path ph s).calls)
      (stepThread K ns path ph s).phase := by
  obtain ⟨r0, hr0, hid0⟩ := hp
  cases ph with
  | start =>
    simp only [phaseOk] at h
    subst h
    simp only [stepThread, hr0]
    split
    · exact ⟨⟨hr0, hid0⟩, rfl⟩
    · refine ⟨(scaleOk_of_zero ns id [] rfl).1, Or.inl ⟨r0, ⟨hr0, hid0⟩, ?_, ?_⟩⟩
      · rw [hid0]
      · exact (scaleOk_of_zero ns id [] rfl).2
  | query route =>
    obtain ⟨hr, rfl⟩ := h
    simp only [stepThread]
    split
    · exact ⟨hr, rfl⟩
    · exact ⟨hr, scaleOk_of_zero ns id _ rfl⟩
  | getScale route =>
    obtain ⟨hr, hc⟩ := h
    simp only [stepThread]
    split
    · rename_i err _
      have h1 := scaleOk_append_plain ns id cs
        { event := Event.GetScale ns (serviceName route.env route.svc), error := some err }
        rfl (scaleOk_of_zero ns id cs hc)
      refine ⟨h1.1, Or.inr ⟨err, rfl, Or.inl ?_⟩⟩
      rw [List.getLast?_append, hr.2]
      rfl
    · refine ⟨hr, rfl, ?_⟩
      rw [scaleCount_append, hc]
      rfl
  | updateScale route scale =>
    obtain ⟨hr, hs, hc⟩ := h
    simp only [stepThread]
    split
    · rename_i err _
      rw [hr.2, hs]
      refine ⟨scaleOk_append_scale ns id cs (some err) hc, Or.inr ⟨err, rfl, Or.inr ?_⟩⟩
      rw [List.getLast?_append]
      rfl
    · rw [hr.2, hs]
      exact ⟨hr, scaleOk_append_scale ns id cs none hc, noFailedScale_append_scale ns id cs hc⟩
  | waitStart route =>
    simp only [stepThread, List.append_nil]
    exact h
  | poll route deadline =>
    simp only [stepThread]
    split
    · simp only [List.append_nil]
      exact h
    · split
      · exact ⟨h.1, scaleOk_append_plain ns id cs _ rfl h.2⟩
      · exact ⟨h.1, scaleOk_append_plain ns id cs _ rfl h.2⟩
  | sleeping route deadline =>
    simp only [stepThread]
    exact ⟨h.1, scaleOk_append_plain ns id cs _ rfl h.2⟩
  | mark route =>
    simp only [stepThread, List.append_nil]
    refine ⟨h.2.1, Or.inl ⟨route, h.1, ?_, h.2.2⟩⟩
    rw [h.1.2]
  | finished resp =>
    simp only [stepThread, List.append_nil]
    exact h

theorem stepThread_trace {σ : Type} (K : World σ) (ns id path : String) (cs : List Call)
    (ph : Phase) (s : Sys σ) (h : phaseOk ns id path cs ph) :
    scaleRequests (stepThread K ns path ph s).sys.trace =
      scaleRequests s.trace ++
        List.replicate (scaleCount (stepThread K ns path ph s).calls) (ns, id, 1) := by
  cases ph with
  | start =>
    simp only [stepThread]
    split
    · simp [scaleCount]
    · split <;> simp [scaleCount]
  | query route =>
    simp only [stepThread]
    split <;>
      simp [scaleCount, Call.isScale, isDeploymentReady_trace, scaleRequests_append,
        scaleRequests]
  | getScale route =>
    simp only [stepThread]
    split <;> simp [scaleCount, Call.isScale, scaleRequests_append, scaleRequests]
  | updateScale route scale =>
    obtain ⟨hr, hs, _⟩ := h
    simp only [stepThread]
    split <;> simp [scaleCount, Call.isScale, scaleRequests_append, scaleRequests, hr.2, hs]
  | waitStart route => simp [stepThread, scaleCount]
  | poll route deadline =>
    simp only [stepThread]
    split
    · simp [scaleCount]
    · split <;>
        simp [scaleCount, Call.isScale, isDeploymentReady_trace, scaleRequests_append,
          scaleRequests]
  | sleeping route deadline =>
    simp [stepThread, sleep, scaleCount, Call.isScale, scaleRequests_append, scaleRequests]
  | mark route => simp [stepThread, scaleCount]
  | finished resp => simp [stepThread, scaleCount]

theorem stepOne_path {σ : Type} (K : World σ) (ns : String) (t : Thread) (s : Sys σ) :
    (stepOne K ns t s).1.path = t.path := by
  unfold stepOne
  split <;> rfl

theorem stepOne_ok {σ : Type} (K : World σ) (ns id : String) (t : Thread) (s : Sys σ)
    (h : threadOk ns id t) : threadOk ns id (stepOne K ns t s).1 := by
  unfold stepOne
  split
  · exact h
  · exact ⟨h.1, stepThread_ok K ns id t.path t.calls t.phase s h.1 h.2⟩

theorem stepOne_trace {σ : Type} (K : World σ) (ns id : String) (t : Thread) (s : Sys σ)
    (h : threadOk ns id t) :
    ∃ k, scaleCount (stepOne K ns t s).1.calls = scaleCount t.calls + k ∧
      scaleRequests (stepOne K ns t s).2.trace =
        scaleRequests s.trace ++ List.replicate k (ns, id, 1) := by
  unfold stepOne
  split
  · exact ⟨0, rfl, by simp⟩
  · exact ⟨scaleCount (stepThread K ns t.path t.phase s).calls, scaleCount_append _ _,
      stepThread_trace K ns id t.path t.calls t.phase s h.2⟩

theorem Since_mono (now now1 t : Int) (h : now ≤ now1) : Since now t ≤ Since now1 t := by
  unfold Since
  simp only [maxDuration, minDuration]
  split <;> split <;> (try split) <;> (try split) <;> omega

theorem staysUnready_of_now {σ : Type} (s : Sys σ) (id : String)
    (h : s.cache.IsReady s.now id = false) : staysUnready s id := by
  intro t ht
  unfold readinessCache.IsReady at h ⊢
  cases hc : s.cache.cache id with
  | none => rfl
  | some t0 =>
    rw [hc] at h
    simp only [decide_eq_false_iff_not, not_lt] at h ⊢
    exact le_trans h (Since_mono s.now t t0 ht)

theorem isDeploymentReady_world {σ : Type} (K : World σ) (ns name : String) (s : Sys σ) :
    (isDeploymentReady K ns name s).2.world = (K.Get ns name s.world).2.2 := by
  unfold isDeploymentReady
  dsimp only
  split
  · rfl
  · split <;> rfl

theorem stepOne_early {σ : Type} (K : World σ) (ns id : String) (Cold : σ → Prop)
    (hget : ∀ w, Cold w → reportsReady (K.Get ns id w).1 = false ∧ Cold (K.Get ns id w).2.2)
    (hgs : ∀ w, Cold w → Cold (K.GetScale ns id w).2.2)
    (t : Thread) (s : Sys σ) (hok : threadOk ns id t) (he : early ns id t)
    (hcold : Cold s.world) (hun : staysUnready s id)
    (hno : scaleCount (stepOne K ns t s).1.calls = scaleCount t.calls) :
    early ns id (stepOne K ns t s).1 ∧ Cold (stepOne K ns t s).2.world ∧
      staysUnready (stepOne K ns t s).2 id := by
  obtain ⟨path, ph, wake, calls⟩ := t
  obtain ⟨⟨r0, hr0, hid0⟩, hph⟩ := hok
  unfold stepOne at hno ⊢
  split
  · exact ⟨he, hcold, hun⟩
  · rw [if_neg (by assumption)] at hno
    dsimp only at hno hr0 hph ⊢
    cases ph with
    | start =>
      have hc : s.cache.IsReady s.now (serviceName r0.env r0.svc) = false := by
        rw [hid0]; exact hun s.now (le_refl _)
      simp only [stepThread, hr0, hc, Bool.not_false, if_true]
      exact ⟨trivial, hcold, hun⟩
    | query route =>
      obtain ⟨hr, _⟩ := hph
      have hq : (isDeploymentReady K ns (serviceName route.env route.svc) s).1 = false := by
        rw [isDeploymentReady_fst, hr.2]
        exact (hget s.world hcold).1
      simp only [stepThread, hq, Bool.not_false, if_true]
      refine ⟨trivial, ?_, ?_⟩
      · dsimp only
        rw [isDeploymentReady_world, hr.2]
        exact (hget s.world hcold).2
      · intro u hu
        dsimp only
        rw [isDeploymentReady_cache]
        exact hun u hu
    | getScale route =>
      obtain ⟨hr, _⟩ := hph
      simp only [stepThread]
      split
      · rename_i err _
        refine ⟨⟨err, rfl, ?_⟩, ?_, hun⟩
        · dsimp only
          rw [List.getLast?_append, hr.2]
          rfl
        · dsimp only
          rw [hr.2]
          exact hgs s.world hcold
      · refine ⟨trivial, ?_, hun⟩
        dsimp only
        rw [hr.2]
        exact hgs s.world hcold
    | updateScale route scale =>
      exfalso
      simp only [stepThread] at hno
      split at hno <;>
        simp [scaleCount_append, scaleCount, Call.isScale] at hno
    | finished resp =>
      simp only [stepThread, List.append_nil]
      exact ⟨he, hcold, hun⟩
    | waitStart route => exact absurd he (by simp [early])
    | poll route deadline => exact absurd he (by simp [early])
    | sleeping route deadline => exact absurd he (by simp [early])
    | mark route => exact absurd he (by simp [early])

theorem totalScale_set (ts : List Thread) (i : Nat) (t t1 : Thread) (k : Nat)
    (h : ts.get? i = some t) (hk : scaleCount t1.calls = scaleCount t.calls + k) :
    totalScale (ts.set i t1) = totalScale ts + k := by
  induction ts generalizing i with
  | nil => simp at h
  | cons a ts ih =>
    cases i with
    | zero =>
      simp only [List.get?_cons_zero, Option.some.injEq] at h
      subst h
      simp only [List.set_cons_zero, totalScale]
      omega
    | succ i =>
      simp only [List.get?_cons_succ] at h
      have := ih i h
      simp only [List.set_cons_succ, totalScale]
      omega

theorem totalScale_le (ns id : String) (ts : List Thread)
    (h : ∀ t ∈ ts, scaleOk ns id t.calls) : totalScale ts ≤ ts.length := by
  induction ts with
  | nil => simp [totalScale]
  | cons a ts ih =>
    have h1 := (h a (List.mem_cons_self _ _)).1
    have h2 := ih (fun t ht => h t (List.mem_cons_of_mem _ ht))
    simp only [totalScale, List.length_cons]
    omega

theorem stepAt_inv {σ : Type} (K : World σ) (ns id : String)
    (tr0 : List (String × String × Int)) (Cold : σ → Prop)
    (hget : ∀ w, Cold w → reportsReady (K.Get ns id w).1 = false ∧ Cold (K.Get ns id w).2.2)
    (hgs : ∀ w, Cold w → Cold (K.GetScale ns id w).2.2)
    (i : Nat) (st : List Thread × Sys σ) (h : coldInv ns id tr0 Cold st) :
    coldInv ns id tr0 Cold (stepAt K ns i st) := by
  obtain ⟨hok, htr, hcold⟩ := h
  unfold stepAt
  cases hg : st.1.get? i with
  | none => exact ⟨hok, htr, hcold⟩
  | some t =>
    dsimp only
    have ht := hok t (List.get?_mem hg)
    obtain ⟨k, hk, hk2⟩ := stepOne_trace K ns id t st.2 ht
    have hts := totalScale_set st.1 i t (stepOne K ns t st.2).1 k hg hk
    refine ⟨?_, ?_, ?_⟩
    · intro u hu
      rcases List.mem_or_eq_of_mem_set hu with hm | rfl
      · exact hok u hm
      · exact stepOne_ok K ns id t st.2 ht
    · rw [hk2, htr, hts, List.replicate_add, List.append_assoc]
    · intro hz
      rw [hts] at hz
      have hz0 : totalScale st.1 = 0 := by omega
      have hk0 : k = 0 := by omega
      obtain ⟨hc, hun, hearly⟩ := hcold hz0
      have hstep := stepOne_early K ns id Cold hget hgs t st.2 ht
        (hearly t (List.get?_mem hg)) hc hun (by rw [hk, hk0]; rfl)
      refine ⟨hstep.2.1, hstep.2.2, ?_⟩
      intro u hu
      rcases List.mem_or_eq_of_mem_set hu with hm | rfl
      · exact hearly u hm
      · exact hstep.1

theorem act_inv {σ : Type} (K : World σ) (ns id : String)
    (tr0 : List (String × String × Int)) (Cold : σ → Prop)
    (hget : ∀ w, Cold w → reportsReady (K.Get ns id w).1 = false ∧ Cold (K.Get ns id w).2.2)
    (hgs : ∀ w, Cold w → Cold (K.GetScale ns id w).2.2)
    (a : Action) (st : List Thread × Sys σ) (h : coldInv ns id tr0 Cold st) :
    coldInv ns id tr0 Cold (act K ns a st) := by
  cases a with
  | run i => exact stepAt_inv K ns id tr0 Cold hget hgs i st h
  | tick d =>
    obtain ⟨hok, htr, hcold⟩ := h
    refine ⟨hok, htr, ?_⟩
    intro hz
    obtain ⟨hc, hun, hearly⟩ := hcold hz
    refine ⟨hc, ?_, hearly⟩
    intro u hu
    refine hun u ?_
    simp only [act, passTime] at hu
    omega

theorem runSchedule_inv {σ : Type} (K : World σ) (ns id : String)
    (tr0 : List (String × String × Int)) (Cold : σ → Prop)
    (hget : ∀ w, Cold w → reportsReady (K.Get ns id w).1 = false ∧ Cold (K.Get ns id w).2.2)
    (hgs : ∀ w, Cold w → Cold (K.GetScale ns id w).2.2)
    (sched : List Action) (st : List Thread × Sys σ) (h : coldInv ns id tr0 Cold st) :
    coldInv ns id tr0 Cold (runSchedule K ns sched st) := by
  induction sched generalizing st with
  | nil => exact h
  | cons a rest ih => exact ih _ (act_inv K ns id tr0 Cold hget hgs a st h)

theorem totalScale_arrivals (paths : List String) : totalScale (arrivals paths) = 0 := by
  induction paths with
  | nil => rfl
  | cons p paths ih => simp [arrivals, totalScale, ih, arrival, scaleCount]

theorem arrivals_inv {σ : Type} (ns id : String) (Cold : σ → Prop) (paths : List String)
    (s : Sys σ) (hpaths : ∀ p ∈ paths, ∃ route, routeOf id p route)
    (hcache : s.cache.IsReady s.now id = false) (h0 : Cold s.world) :
    coldInv ns id (scaleRequests s.trace) Cold (arrivals paths, s) := by
  have hall : ∀ t ∈ arrivals paths, threadOk ns id t ∧ early ns id t := by
    induction paths with
    | nil => intro t ht; simp [arrivals] at ht
    | cons p paths ih =>
      intro t ht
      simp only [arrivals, List.mem_cons] at ht
      rcases ht with rfl | ht
      · exact ⟨⟨hpaths p (List.mem_cons_self _ _), rfl⟩, trivial⟩
      · exact ih (fun q hq => hpaths q (List.mem_cons_of_mem _ hq)) t ht
  refine ⟨fun t ht => (hall t ht).1, ?_, ?_⟩
  · simp [totalScale_arrivals]
  · intro _
    exact ⟨h0, staysUnready_of_now s id hcache, fun t ht => (hall t ht).2⟩

theorem map_path_set (ts : List Thread) (i : Nat) (t t1 : Thread)
    (h : ts.get? i = some t) (hp : t1.path = t.path) :
    (ts.set i t1).map Thread.path = ts.map Thread.path := by
  induction ts generalizing i with
  | nil => rfl
  | cons a ts ih =>
    cases i with
    | zero =>
      simp only [List.get?_cons_zero, Option.some.injEq] at h
      subst h
      simp [hp]
    | succ i =>
      simp only [List.get?_cons_succ] at h
      simp [ih i h]

theorem stepAt_paths {σ : Type} (K : World σ) (ns : String) (i : Nat)
    (st : List Thread × Sys σ) :
    (stepAt K ns i st).1.map Thread.path = st.1.map Thread.path := by
  unfold stepAt
  cases hg : st.1.get? i with
  | none => rfl
  | some t => exact map_path_set st.1 i t _ hg (stepOne_path K ns t st.2)

theorem runSchedule_paths {σ : Type} (K : World σ) (ns : String) (sched : List Action)
    (st : List Thread × Sys σ) :
    (runSchedule K ns sched st).1.map Thread.path = st.1.map Thread.path := by
  induction sched generalizing st with
  | nil => rfl
  | cons a rest ih =>
    simp only [runSchedule]
    rw [ih]
    cases a with
    | run i => exact stepAt_paths K ns i st
    | tick d => rfl

theorem arrivals_paths (paths : List String) : (arrivals paths).map Thread.path = paths := by
  induction paths with
  | nil => rfl
  | cons p paths ih => simp [arrivals, arrival, ih]

/-! ### One handler on its own -/

theorem runSchedule_append {σ : Type} (K : World σ) (ns : String) (a b : List Action)
    (st : List Thread × Sys σ) :
    runSchedule K ns (a ++ b) st = runSchedule K ns b (runSchedule K ns a st) := by
  induction a generalizing st with
  | nil => rfl
  | cons x a ih => exact ih (act K ns x st)

theorem runOne_append {σ : Type} (K : World σ) (ns : String) (a b : List Action)
    (st : Thread × Sys σ) :
    runOne K ns (a ++ b) st = runOne K ns b (runOne K ns a st) := by
  induction a generalizing st with
  | nil => rfl
  | cons x a ih =>
    cases x with
    | run i => exact ih _
    | tick d => exact ih _

theorem set_get_self (ts : List Thread) (i : Nat) (t : Thread) (h : ts.get? i = some t) :
    ts.set i t = ts := by
  induction ts generalizing i with
  | nil => rfl
  | cons a ts ih =>
    cases i with
    | zero =>
      simp only [List.get?_cons_zero, Option.some.injEq] at h
      subst h
      rfl
    | succ i =>
      simp only [List.get?_cons_succ] at h
      simp [ih i h]

theorem get_set_self (ts : List Thread) (i : Nat) (t t1 : Thread) (h : ts.get? i = some t) :
    (ts.set i t1).get? i = some t1 := by
  induction ts generalizing i with
  | nil => simp at h
  | cons a ts ih =>
    cases i with
    | zero => rfl
    | succ i =>
      simp only [List.get?_cons_succ] at h
      simpa using ih i h

/-- Scheduling only handler `i` acts on that handler as `runOne` does and
leaves the other handlers alone. -/
theorem runSchedule_onThread {σ : Type} (K : World σ) (ns : String) (i : Nat)
    (acts : List Action) (ts : List Thread) (s : Sys σ) (t : Thread)
    (h : ts.get? i = some t) :
    runSchedule K ns (onThread i acts) (ts, s) =
      (ts.set i (runOne K ns acts (t, s)).1, (runOne K ns acts (t, s)).2) := by
  induction acts generalizing ts s t with
  | nil =>
    simp only [onThread, runSchedule, runOne]
    rw [set_get_self ts i t h]
  | cons a acts ih =>
    cases a with
    | run j =>
      simp only [onThread, runSchedule, runOne, act, stepAt, h]
      rw [ih (ts.set i (stepOne K ns t s).1) (stepOne K ns t s).2 (stepOne K ns t s).1
        (get_set_self ts i t _ h), List.set_set]
    | tick d =>
      simp only [onThread, runSchedule, runOne, act]
      exact ih ts (passTime d s) t h

theorem stepThread_delay {σ : Type} (K : World σ) (ns path : String) (ph : Phase)
    (s : Sys σ) : 0 ≤ (stepThread K ns path ph s).delay := by
  cases ph with
  | start =>
    simp only [stepThread]
    split
    · exact le_refl _
    · split <;> exact le_refl _
  | query route =>
    simp only [stepThread]
    split <;> simp [isDeploymentReady_now]
  | getScale route =>
    simp only [stepThread]
    split <;> simp
  | updateScale route scale =>
    simp only [stepThread]
    split <;> simp
  | waitStart route => simp [stepThread]
  | poll route deadline =>
    simp only [stepThread]
    split
    · exact le_refl _
    · split <;> simp [isDeploymentReady_now]
  | sleeping route deadline =>
    simp only [stepThread, sleep, Second]
    omega
  | mark route => simp [stepThread]
  | finished resp => simp [stepThread]

theorem blocked_after (path : String) (ph : Phase) (calls : List Call) (now delay : Int)
    (h : 0 ≤ delay) :
    Thread.blocked { path := path, phase := ph, wake := some (now + delay), calls := calls }
      (now + (delay.toNat : Int)) = false := by
  simp only [Thread.blocked, decide_eq_false_iff_not]
  omega

theorem Reaches.step {σ : Type} {K : World σ} {ns path : String} {ph : Phase} {s : Sys σ}
    {ph1 : Phase} {s1 : Sys σ} (h1 : (stepThread K ns path ph s).phase = ph1)
    (h2 : passTime (stepThread K ns path ph s).delay.toNat (stepThread K ns path ph s).sys = s1) :
    Reaches K ns path ph s ph1 s1 := by
  intro wake calls hb
  refine ⟨[Action.run 0, Action.tick (stepThread K ns path ph s).delay.toNat],
    some (s.now + (stepThread K ns path ph s).delay),
    calls ++ (stepThread K ns path ph s).calls, ?_, ?_⟩
  · simp only [runOne, stepOne, hb, Bool.false_eq_true, if_false, h1, h2]
  · rw [← h2]
    simp only [passTime, stepThread_now]
    exact blocked_after path ph1 _ s.now _ (stepThread_delay K ns path ph s)

theorem Reaches.trans {σ : Type} {K : World σ} {ns path : String} {ph : Phase} {s : Sys σ}
    {ph1 : Phase} {s1 : Sys σ} {ph2 : Phase} {s2 : Sys σ}
    (h1 : Reaches K ns path ph s ph1 s1) (h2 : Reaches K ns path ph1 s1 ph2 s2) :
    Reaches K ns path ph s ph2 s2 := by
  intro wake calls hb
  obtain ⟨a1, w1, c1, e1, b1⟩ := h1 wake calls hb
  obtain ⟨a2, w2, c2, e2, b2⟩ := h2 w1 c1 b1
  exact ⟨a1 ++ a2, w2, c2, by rw [runOne_append, e1, e2], b2⟩

theorem passTime_restore {σ : Type} (s s1 : Sys σ) (e : Nat) (h : s1.now = s.now + e) :
    passTime (s1.now - s.now).toNat { s1 with now := s.now } = s1 := by
  have : (((s1.now - s.now).toNat : Nat) : Int) = e := by omega
  simp only [passTime, this, ← h]

theorem poll_reaches_mark {σ : Type} (K : World σ) (ns path : String) (route : Route)
    (deadline : Int) (s : Sys σ) :
    Reaches K ns path (Phase.poll route deadline) s (Phase.mark route)
      (waitLoop K ns (serviceName route.env route.svc) deadline s) := by
  refine waitLoop.induct K ns (serviceName route.env route.svc) deadline
    (fun s => Reaches K ns path (Phase.poll route deadline) s (Phase.mark route)
      (waitLoop K ns (serviceName route.env route.svc) deadline s)) ?_ ?_ ?_ s
  · intro x hx
    rw [waitLoop_done _ _ _ _ _ hx]
    refine Reaches.step ?_ ?_
    · simp only [stepThread]; rw [if_pos hx]
    · simp only [stepThread]; rw [if_pos hx]; simp [passTime]
  · intro x hx r hr
    rw [waitLoop_ready _ _ _ _ _ hx hr]
    refine Reaches.step ?_ ?_
    · simp only [stepThread]; rw [if_neg hx, if_pos hr]
    · simp only [stepThread]; rw [if_neg hx, if_pos hr]
      exact passTime_restore x _ _ (isDeploymentReady_now K ns _ x)
  · intro x hx r hr ih
    rw [waitLoop_again _ _ _ _ _ hx hr]
    have h1 : Reaches K ns path (Phase.poll route deadline) x (Phase.sleeping route deadline)
        (isDeploymentReady K ns (serviceName route.env route.svc) x).2 := by
      refine Reaches.step ?_ ?_
      · simp only [stepThread]; rw [if_neg hx, if_neg hr]
      · simp only [stepThread]; rw [if_neg hx, if_neg hr]
        exact passTime_restore x _ _ (isDeploymentReady_now K ns _ x)
    have h2 : Reaches K ns path (Phase.sleeping route deadline)
        (isDeploymentReady K ns (serviceName route.env route.svc) x).2
        (Phase.poll route deadline)
        (sleep K (3 * Second) (isDeploymentReady K ns (serviceName route.env route.svc) x).2) := by
      refine Reaches.step rfl ?_
      simp only [stepThread]
      refine passTime_restore _ _ ((3 * Second).toNat +
        (K.Sleep (3 * Second)
          (isDeploymentReady K ns (serviceName route.env route.svc) x).2.world).1) ?_
      simp only [sleep, Second]
      push_cast
      omega
    exact h1.trans (h2.trans ih)

theorem getScale_reaches {σ : Type} (K : World σ) (ns path : String) (route : Route)
    (s : Sys σ) :
    Reaches K ns path (Phase.getScale route) s
      (match (scaleDeployment K ns (serviceName route.env route.svc) 1 s).1 with
        | some err => Phase.finished (Response.error 500 ("Scale up failed: " ++ err))
        | none => Phase.waitStart route)
      (scaleDeployment K ns (serviceName route.env route.svc) 1 s).2 := by
  unfold scaleDeployment
  cases hg : (K.GetScale ns (serviceName route.env route.svc) s.world).1 with
  | error err =>
    dsimp only
    rw [hg]
    exact Reaches.step (by simp [stepThread, hg]) (by simp [stepThread, hg, passTime])
  | ok scale =>
    dsimp only
    rw [hg]
    dsimp only
    have h1 : Reaches K ns path (Phase.getScale route) s
        (Phase.updateScale route { scale with Replicas := 1 })
        { s with now := s.now + (K.GetScale ns (serviceName route.env route.svc) s.world).2.1,
                 world := (K.GetScale ns (serviceName route.env route.svc) s.world).2.2,
                 trace := s.trace ++ [Event.GetScale ns (serviceName route.env route.svc)] } :=
      Reaches.step (by simp [stepThread, hg]) (by simp [stepThread, hg, passTime])
    refine h1.trans ?_
    cases hu : (K.UpdateScale ns (serviceName route.env route.svc)
        { scale with Replicas := 1 }
        (K.GetScale ns (serviceName route.env route.svc) s.world).2.2).1 with
    | some err =>
      exact Reaches.step (by simp [stepThread, hu]) (by simp [stepThread, hu, passTime])
    | none =>
      exact Reaches.step (by simp [stepThread, hu]) (by simp [stepThread, hu, passTime])

/-- The step machine run alone is the handler: a handler stepped on its own,
with the clock moved by what each of its calls and sleeps takes, ends with the
reply and the state that `activatorHandler` computes. -/
theorem start_reaches_handler {σ : Type} (K : World σ) (ns path : String) (s : Sys σ) :
    Reaches K ns path Phase.start s (Phase.finished (activatorHandler K ns path s).1)
      (activatorHandler K ns path s).2 := by
  unfold activatorHandler
  cases hp : parseRoute path with
  | none =>
    exact Reaches.step (by simp only [stepThread, hp]) (by simp [stepThread, hp, passTime])
  | some route =>
    dsimp only
    cases hc : s.cache.IsReady s.now (serviceName route.env route.svc) with
    | true =>
      exact Reaches.step (by simp [stepThread, hp, hc]) (by simp [stepThread, hp, hc, passTime])
    | false =>
      have h1 : Reaches K ns path Phase.start s (Phase.query route) s :=
        Reaches.step (by simp [stepThread, hp, hc]) (by simp [stepThread, hp, hc, passTime])
      refine h1.trans ?_
      simp only [Bool.not_false, if_true]
      cases hq : (isDeploymentReady K ns (serviceName route.env route.svc) s).1 with
      | true =>
        have h2 : Reaches K ns path (Phase.query route) s (Phase.mark route)
            (isDeploymentReady K ns (serviceName route.env route.svc) s).2 := by
          refine Reaches.step (by simp [stepThread, hq]) ?_
          simp only [stepThread, hq, Bool.not_true, Bool.false_eq_true, if_false]
          exact passTime_restore s _ _ (isDeploymentReady_now K ns _ s)
        refine h2.trans ?_
        exact Reaches.step (by simp [stepThread]) (by simp [stepThread, passTime])
      | false =>
        have h2 : Reaches K ns path (Phase.query route) s (Phase.getScale route)
            (isDeploymentReady K ns (serviceName route.env route.svc) s).2 := by
          refine Reaches.step (by simp [stepThread, hq]) ?_
          simp only [stepThread, hq, Bool.not_false, if_true]
          exact passTime_restore s _ _ (isDeploymentReady_now K ns _ s)
        refine h2.trans ?_
        simp only [Bool.not_false, if_true]
        have h3 := getScale_reaches K ns path route
          (isDeploymentReady K ns (serviceName route.env route.svc) s).2
        cases hs : (scaleDeployment K ns (serviceName route.env route.svc) 1
            (isDeploymentReady K ns (serviceName route.env route.svc) s).2).1 with
        | some err =>
          rw [hs] at h3
          exact h3
        | none =>
          rw [hs] at h3
          refine h3.trans ?_
          have h4 : Reaches K ns path (Phase.waitStart route)
              (scaleDeployment K ns (serviceName route.env route.svc) 1
                (isDeploymentReady K ns (serviceName route.env route.svc) s).2).2
              (Phase.poll route
                ((scaleDeployment K ns (serviceName route.env route.svc) 1
                  (isDeploymentReady K ns (serviceName route.env route.svc) s).2).2.now +
                    120 * Second))
              (scaleDeployment K ns (serviceName route.env route.svc) 1
                (isDeploymentReady K ns (serviceName route.env route.svc) s).2).2 :=
            Reaches.step (by simp [stepThread]) (by simp [stepThread, passTime])
          refine h4.trans ((poll_reaches_mark K ns path route _ _).trans ?_)
          exact Reaches.step (by simp [stepThread, waitForDeployment])
            (by simp [stepThread, passTime, waitForDeployment])

theorem lone_thread_is_handler {σ : Type} (K : World σ) (ns path : String) (s : Sys σ) :
    ∃ acts wake calls, runSchedule K ns acts (arrivals [path], s) =
      ([{ path := path, phase := Phase.finished (activatorHandler K ns path s).1,
          wake := wake, calls := calls }], (activatorHandler K ns path s).2) := by
  obtain ⟨acts, wake, calls, h, _⟩ := start_reaches_handler K ns path s none [] rfl
  refine ⟨onThread 0 acts, wake, calls, ?_⟩
  have h2 := runSchedule_onThread K ns 0 acts (arrivals [path]) s (arrival path) rfl
  rw [h2]
  simp only [arrival] at h ⊢
  rw [h]
  rfl

/-! ### Every handler can be brought to return -/

theorem runOne_tick_run {σ : Type} (K : World σ) (ns : String) (t : Thread) (s : Sys σ) :
    runOne K ns [Action.tick (untilWake t.wake s.now), Action.run 0] (t, s) =
      ({ path := t.path,
         phase := (stepThread K ns t.path t.phase (passTime (untilWake t.wake s.now) s)).phase,
         wake := some (s.now + untilWake t.wake s.now +
           (stepThread K ns t.path t.phase (passTime (untilWake t.wake s.now) s)).delay),
         calls := t.calls ++
           (stepThread K ns t.path t.phase (passTime (untilWake t.wake s.now) s)).calls },
       (stepThread K ns t.path t.phase (passTime (untilWake t.wake s.now) s)).sys) := by
  have hb : t.blocked (passTime (untilWake t.wake s.now) s).now = false := by
    unfold Thread.blocked untilWake passTime
    cases t.wake with
    | none => rfl
    | some w =>
      simp only [decide_eq_false_iff_not]
      omega
  simp only [runOne, stepOne, hb, Bool.false_eq_true, if_false]
  rfl

theorem finishes.prepend {σ : Type} {K : World σ} {ns : String} {t t1 : Thread}
    {s s1 : Sys σ} (acts : List Action) (h : runOne K ns acts (t, s) = (t1, s1))
    (h1 : finishes K ns t1 s1) : finishes K ns t s := by
  obtain ⟨more, hm⟩ := h1
  exact ⟨acts ++ more, by rw [runOne_append, h]; exact hm⟩

theorem finishes_of_step {σ : Type} (K : World σ) (ns path : String) (ph : Phase)
    (h : ∀ (s1 : Sys σ) wake calls,
      finishes K ns
        { path := path, phase := (stepThread K ns path ph s1).phase, wake := wake,
          calls := calls }
        (stepThread K ns path ph s1).sys)
    (wake : Option Int) (calls : List Call) (s : Sys σ) :
    finishes K ns { path := path, phase := ph, wake := wake, calls := calls } s :=
  finishes.prepend _
    (runOne_tick_run K ns { path := path, phase := ph, wake := wake, calls := calls } s)
    (h _ _ _)

theorem finishes_finished {σ : Type} (K : World σ) (ns path : String) (resp : Response)
    (wake : Option Int) (calls : List Call) (s : Sys σ) :
    finishes K ns
      { path := path, phase := Phase.finished resp, wake := wake, calls := calls } s :=
  ⟨[], resp, rfl⟩

theorem finishes_mark {σ : Type} (K : World σ) (ns path : String) (route : Route)
    (wake : Option Int) (calls : List Call) (s : Sys σ) :
    finishes K ns { path := path, phase := Phase.mark route, wake := wake, calls := calls } s :=
  finishes_of_step K ns path (Phase.mark route)
    (fun _ w c => finishes_finished K ns path _ w c _) wake calls s

theorem runOne_tick_run_spec {σ : Type} (K : World σ) (ns : String) (t : Thread)
    (s : Sys σ) :
    ∃ t1 s1, runOne K ns [Action.tick (untilWake t.wake s.now), Action.run 0] (t, s) = (t1, s1) ∧
      t1.path = t.path ∧
      t1.phase = (stepThread K ns t.path t.phase (passTime (untilWake t.wake s.now) s)).phase ∧
      s1.now = s.now + untilWake t.wake s.now ∧
      s1.now + untilWake t1.wake s1.now = s.now + untilWake t.wake s.now +
        (stepThread K ns t.path t.phase (passTime (untilWake t.wake s.now) s)).delay := by
  refine ⟨_, _, runOne_tick_run K ns t s, rfl, rfl, ?_, ?_⟩
  · rw [stepThread_now]
    rfl
  · have hd := stepThread_delay K ns t.path t.phase (passTime (untilWake t.wake s.now) s)
    rw [stepThread_now]
    generalize (stepThread K ns t.path t.phase (passTime (untilWake t.wake s.now) s)).delay = dl
      at hd ⊢
    generalize untilWake t.wake s.now = u
    simp only [untilWake, passTime]
    omega

theorem stepThread_poll_phase {σ : Type} (K : World σ) (ns path : String) (route : Route)
    (deadline : Int) (s : Sys σ) :
    (stepThread K ns path (Phase.poll route deadline) s).phase =
      if deadline ≤ s.now then Phase.mark route
      else if (isDeploymentReady K ns (serviceName route.env route.svc) s).1 then
        Phase.mark route
      else Phase.sleeping route deadline := by
  simp only [stepThread]
  split
  · rfl
  · split <;> rfl

theorem stepThread_sleeping_delay {σ : Type} (K : World σ) (ns path : String)
    (route : Route) (deadline : Int) (s : Sys σ) :
    3 * Second ≤ (stepThread K ns path (Phase.sleeping route deadline) s).delay := by
  simp only [stepThread, sleep, Second]
  omega

/-- One round of the wait loop: the handler leaves the loop, or it is back
at the check of the context at least three seconds later. -/
theorem poll_round {σ : Type} (K : World σ) (ns path : String) (route : Route)
    (deadline : Int) (wake : Option Int) (calls : List Call) (s : Sys σ) :
    finishes K ns
        { path := path, phase := Phase.poll route deadline, wake := wake, calls := calls } s ∨
      (¬ deadline ≤ s.now + untilWake wake s.now ∧
        ∃ acts wake2 calls2 s2,
          runOne K ns acts
              ({ path := path, phase := Phase.poll route deadline, wake := wake,
                 calls := calls }, s) =
            ({ path := path, phase := Phase.poll route deadline, wake := wake2,
               calls := calls2 }, s2) ∧
          s.now + untilWake wake s.now + 3 * Second ≤ s2.now + untilWake wake2 s2.now) := by
  obtain ⟨t1, s1, e1, hp1, hph1, hn1, hw1⟩ := runOne_tick_run_spec K ns
    { path := path, phase := Phase.poll route deadline, wake := wake, calls := calls } s
  dsimp only at e1 hp1 hph1 hn1 hw1
  have hd1 := stepThread_delay K ns path (Phase.poll route deadline)
    (passTime (untilWake wake s.now) s)
  rw [stepThread_poll_phase] at hph1
  obtain ⟨p1, ph1, w1, c1⟩ := t1
  dsimp only at hp1 hph1 hw1
  subst hp1
  by_cases hd : deadline ≤ (passTime (untilWake wake s.now) s).now
  · left
    rw [if_pos hd] at hph1
    subst hph1
    exact finishes.prepend _ e1 (finishes_mark K ns p1 route _ _ _)
  · rw [if_neg hd] at hph1
    by_cases hr : (isDeploymentReady K ns (serviceName route.env route.svc)
        (passTime (untilWake wake s.now) s)).1 = true
    · left
      rw [if_pos hr] at hph1
      subst hph1
      exact finishes.prepend _ e1 (finishes_mark K ns p1 route _ _ _)
    · right
      rw [if_neg hr] at hph1
      subst hph1
      refine ⟨hd, ?_⟩
      obtain ⟨t2, s2, e2, hp2, hph2, hn2, hw2⟩ := runOne_tick_run_spec K ns
        { path := p1, phase := Phase.sleeping route deadline, wake := w1, calls := c1 } s1
      dsimp only at e2 hp2 hph2 hn2 hw2
      have hd2 := stepThread_sleeping_delay K ns p1 route deadline
        (passTime (untilWake w1 s1.now) s1)
      obtain ⟨p2, ph2, w2, c2⟩ := t2
      dsimp only at hp2 hph2 hw2
      subst hp2
      have hph2b : ph2 = Phase.poll route deadline := hph2
      subst hph2b
      refine ⟨_, w2, c2, s2, (runOne_append K ns _ _ _).trans (by rw [e1]; exact e2), ?_⟩
      omega

theorem finishes_poll {σ : Type} (K : World σ) (ns path : String) (route : Route)
    (deadline : Int) :
    ∀ (n : Nat) (wake : Option Int) (calls : List Call) (s : Sys σ),
      (deadline - (s.now + untilWake wake s.now)).toNat ≤ n →
      finishes K ns
        { path := path, phase := Phase.poll route deadline, wake := wake, calls := calls }
        s := by
  intro n
  induction n with
  | zero =>
    intro wake calls s hn
    rcases poll_round K ns path route deadline wake calls s with h | ⟨hd, _⟩
    · exact h
    · omega
  | succ n ih =>
    intro wake calls s hn
    rcases poll_round K ns path route deadline wake calls s with h | ⟨hd, acts, w2, c2, s2, e, hle⟩
    · exact h
    · refine finishes.prepend acts e (ih w2 c2 s2 ?_)
      simp only [Second] at hle
      omega

theorem finishes_sleeping {σ : Type} (K : World σ) (ns path : String) (route : Route)
    (deadline : Int) (wake : Option Int) (calls : List Call) (s : Sys σ) :
    finishes K ns
      { path := path, phase := Phase.sleeping route deadline, wake := wake, calls := calls }
      s :=
  finishes_of_step K ns path (Phase.sleeping route deadline)
    (fun _ w c => finishes_poll K ns path route deadline _ w c _ (le_refl _)) wake calls s

theorem finishes_waitStart {σ : Type} (K : World σ) (ns path : String) (route : Route)
    (wake : Option Int) (calls : List Call) (s : Sys σ) :
    finishes K ns
      { path := path, phase := Phase.waitStart route, wake := wake, calls := calls } s :=
  finishes_of_step K ns path (Phase.waitStart route)
    (fun s1 w c => finishes_poll K ns path route (s1.now + 120 * Second) _ w c _ (le_refl _))
    wake calls s

theorem finishes_updateScale {σ : Type} (K : World σ) (ns path : String) (route : Route)
    (scale : Scale) (wake : Option Int) (calls : List Call) (s : Sys σ) :
    finishes K ns
      { path := path, phase := Phase.updateScale route scale, wake := wake, calls := calls }
      s := by
  refine finishes_of_step K ns path (Phase.updateScale route scale) ?_ wake calls s
  intro s1 w c
  simp only [stepThread]
  split
  · exact finishes_finished K ns path _ w c _
  · exact finishes_waitStart K ns path route w c _

theorem finishes_getScale {σ : Type} (K : World σ) (ns path : String) (route : Route)
    (wake : Option Int) (calls : List Call) (s : Sys σ) :
    finishes K ns
      { path := path, phase := Phase.getScale route, wake := wake, calls := calls } s := by
  refine finishes_of_step K ns path (Phase.getScale route) ?_ wake calls s
  intro s1 w c
  simp only [stepThread]
  split
  · exact finishes_finished K ns path _ w c _
  · exact finishes_updateScale K ns path route _ w c _

theorem finishes_query {σ : Type} (K : World σ) (ns path : String) (route : Route)
    (wake : Option Int) (calls : List Call) (s : Sys σ) :
    finishes K ns
      { path := path, phase := Phase.query route, wake := wake, calls := calls } s := by
  refine finishes_of_step K ns path (Phase.query route) ?_ wake calls s
  intro s1 w c
  simp only [stepThread]
  split
  · exact finishes_getScale K ns path route w c _
  · exact finishes_mark K ns path route w c _

theorem finishes_start {σ : Type} (K : World σ) (ns path : String)
    (wake : Option Int) (calls : List Call) (s : Sys σ) :
    finishes K ns { path := path, phase := Phase.start, wake := wake, calls := calls } s := by
  refine finishes_of_step K ns path Phase.start ?_ wake calls s
  intro s1 w c
  simp only [stepThread]
  split
  · exact finishes_finished K ns path _ w c _
  · split
    · exact finishes_query K ns path _ w c _
    · exact finishes_finished K ns path _ w c _

/-- A handler, wherever it stands, can be brought to return: the wait loop
ends at the deadline of its context at the latest. -/
theorem finishes_any {σ : Type} (K : World σ) (ns : String) (t : Thread) (s : Sys σ) :
    finishes K ns t s := by
  obtain ⟨path, ph, wake, calls⟩ := t
  cases ph with
  | start => exact finishes_start K ns path wake calls s
  | query route => exact finishes_query K ns path route wake calls s
  | getScale route => exact finishes_getScale K ns path route wake calls s
  | updateScale route scale => exact finishes_updateScale K ns path route scale wake calls s
  | waitStart route => exact finishes_waitStart K ns path route wake calls s
  | poll route deadline =>
    exact finishes_poll K ns path route deadline _ wake calls s (le_refl _)
  | sleeping route deadline => exact finishes_sleeping K ns path route deadline wake calls s
  | mark route => exact finishes_mark K ns path route wake calls s
  | finished resp => exact finishes_finished K ns path resp wake calls s

theorem get_set_other (ts : List Thread) (i j : Nat) (t1 : Thread) (h : j ≠ i) :
    (ts.set i t1).get? j = ts.get? j := by
  induction ts generalizing i j with
  | nil => rfl
  | cons a ts ih =>
    cases i with
    | zero =>
      cases j with
      | zero => exact absurd rfl h
      | succ j => rfl
    | succ i =>
      cases j with
      | zero => rfl
      | succ j =>
        simp only [List.set_cons_succ, List.get?_cons_succ]
        exact ih i j (fun e => h (by rw [e]))

theorem finish_upto {σ : Type} (K : World σ) (ns : String) (ts : List Thread) (s : Sys σ) :
    ∀ k : Nat, ∃ acts, ∀ j < k, ∀ t,
      (runSchedule K ns acts (ts, s)).1.get? j = some t → t.returned := by
  intro k
  induction k with
  | zero => exact ⟨[], fun j hj => absurd hj (Nat.not_lt_zero j)⟩
  | succ k ih =>
    obtain ⟨acts1, h1⟩ := ih
    cases hg : (runSchedule K ns acts1 (ts, s)).1.get? k with
    | none =>
      refine ⟨acts1, ?_⟩
      intro j hj t ht
      rcases Nat.lt_succ_iff_lt_or_eq.1 hj with hlt | rfl
      · exact h1 j hlt t ht
      · rw [hg] at ht
        exact absurd ht (by simp)
    | some t0 =>
      obtain ⟨acts2, h2⟩ := finishes_any K ns t0 (runSchedule K ns acts1 (ts, s)).2
      refine ⟨acts1 ++ onThread k acts2, ?_⟩
      intro j hj t ht
      rw [runSchedule_append] at ht
      have hrun := runSchedule_onThread K ns k acts2 (runSchedule K ns acts1 (ts, s)).1
        (runSchedule K ns acts1 (ts, s)).2 t0 hg
      rw [hrun] at ht
      dsimp only at ht
      rcases Nat.lt_succ_iff_lt_or_eq.1 hj with hlt | rfl
      · rw [get_set_other _ _ _ _ (Nat.ne_of_lt hlt)] at ht
        exact h1 j hlt t ht
      · rw [get_set_self _ _ t0 _ hg] at ht
        simp only [Option.some.injEq] at ht
        rw [← ht]
        exact h2

/-- Every execution can be continued until all handlers have returned. -/
theorem finish_all {σ : Type} (K : World σ) (ns : String) (st : List Thread × Sys σ) :
    ∃ more, ∀ t ∈ (runSchedule K ns more st).1, t.returned := by
  obtain ⟨acts, h⟩ := finish_upto K ns st.1 st.2 st.1.length
  refine ⟨acts, ?_⟩
  intro t ht
  obtain ⟨n, hn⟩ := List.mem_iff_get?.1 ht
  have hlen : (runSchedule K ns acts st).1.length = st.1.length := by
    have := congrArg List.length (runSchedule_paths K ns acts st)
    simpa using this
  have hlt : n < st.1.length := by
    rw [← hlen]
    exact List.get?_eq_some.1 hn |>.1
  exact h n hlt t hn


theorem stepAt_now {σ : Type} (K : World σ) (ns : String) (i : Nat)
    (st : List Thread × Sys σ) : (stepAt K ns i st).2.now = st.2.now := by
  unfold stepAt
  cases st.1.get? i with
  | none => rfl
  | some t =>
    dsimp only
    unfold stepOne
    split
    · rfl
    · exact stepThread_now K ns t.path t.phase st.2

/-- The clock moves only when time passes: no step of a handler moves it. -/
theorem runSchedule_now {σ : Type} (K : World σ) (ns : String) (sched : List Action)
    (st : List Thread × Sys σ) :
    (runSchedule K ns sched st).2.now = st.2.now + timePassed sched := by
  induction sched generalizing st with
  | nil => simp [runSchedule, timePassed]
  | cons a rest ih =>
    cases a with
    | run i =>
      simp only [runSchedule, timePassed, act]
      rw [ih, stepAt_now]
    | tick d =>
      simp only [runSchedule, timePassed, act]
      rw [ih]
      simp only [passTime]
      push_cast
      omega
/-! ### The claim -/

/-- Handlers sleep in parallel: two handlers for `/preview/demo/api` that have
both scaled, polled once and gone to sleep at clock value 0 are both woken by
the same three seconds, poll again, and are asleep again at clock value 3 s. -/
theorem handlers_sleep_in_parallel :
    (runSchedule (cluster 5) "preview"
        [Action.run 0, Action.run 0, Action.run 0, Action.run 0, Action.run 0, Action.run 0,
          Action.run 0,
          Action.run 1, Action.run 1, Action.run 1, Action.run 1, Action.run 1, Action.run 1,
          Action.run 1,
          Action.tick 3000000000, Action.run 0, Action.run 1]
        (arrivals ["/preview/demo/api", "/preview/demo/api"], initial 0 none)).2.now =
      3 * Second ∧
    (runSchedule (cluster 5) "preview"
        [Action.run 0, Action.run 0, Action.run 0, Action.run 0, Action.run 0, Action.run 0,
          Action.run 0,
          Action.run 1, Action.run 1, Action.run 1, Action.run 1, Action.run 1, Action.run 1,
          Action.run 1,
          Action.tick 3000000000, Action.run 0, Action.run 1]
        (arrivals ["/preview/demo/api", "/preview/demo/api"], initial 0 none)).1.map
          (fun t => (t.phase, t.wake)) =
      [(Phase.sleeping { env := "demo", svc := "api", rest := "/" } (120 * Second),
          some (3 * Second)),
       (Phase.sleeping { env := "demo", svc := "api", rest := "/" } (120 * Second),
          some (3 * Second))] := by
  decide

/-- C10 as stated fails. Two handlers for `/preview/demo/api` on a cold
deployment, scheduled in turn, both find the cache empty, both are told the
deployment is not ready, and both issue the scale request: two requests reach
the control plane, not one. And on a cluster that refuses a stale update, the
same interleaving ends with the first request forwarded and the second
answered 500: the two do not see the same outcome. -/
theorem concurrent_requests_scale_twice :
    scaleRequests (runSchedule (cluster 2) "preview"
        [Action.run 0, Action.run 1, Action.run 0, Action.run 1, Action.run 0, Action.run 1,
          Action.run 0, Action.run 1]
        (arrivals ["/preview/demo/api", "/preview/demo/api"], initial 0 none)).2.trace =
      [("preview", "demo-ecosystem-api", 1), ("preview", "demo-ecosystem-api", 1)] ∧
    (runSchedule versionedCluster "preview"
        [Action.run 0, Action.run 1, Action.run 0, Action.run 1, Action.run 0, Action.run 1,
          Action.run 0, Action.run 1, Action.run 0, Action.run 0, Action.run 0]
        (arrivals ["/preview/demo/api", "/preview/demo/api"], initial 0 (0, false))).1.map
          (fun t => t.phase) =
      [Phase.finished (Response.proxied "demo-ecosystem-api.preview.svc.cluster.local" "/"),
       Phase.finished (Response.error 500 "Scale up failed: the object has been modified")] := by
  decide

/-- C10, amended. Take handlers for `n` requests to the same deployment `id`,
which the cache does not report ready and which is cold (`Cold` holds of the
environment, and while it holds every `Get` for `id` reports not ready),
interleaved in any order, with time passing in any way. Then, at any point of
the execution:

* the handlers are those of the `n` requests, and the clock has moved by the
  time that passed and by nothing else (no call and no sleep of one handler
  holds up another);
* each handler has issued at most one scale request, and every scale request
  of a handler is `UpdateScale(ns, id, 1)`;
* the scale requests that reached the control plane are those of the
  handlers, so there are at most `n` of them;
* a handler that has returned has forwarded its request to the host of `id`
  with the rest of its own path, none of its scale requests having failed, or
  has answered 500 with the error of its own last call, a failed `GetScale`
  or a failed `UpdateScale(ns, id, 1)`;
* as soon as a handler has returned otherwise than because its `GetScale`
  failed, at least one scale request has been issued;
* the execution can be continued until all handlers have returned;
* and a handler running alone does what `activatorHandler` does. -/
theorem concurrent_requests_bounded {σ : Type} (K : World σ) (ns id : String)
    (paths : List String) (sched : List Action) (s : Sys σ) (Cold : σ → Prop)
    (hpaths : ∀ p ∈ paths, ∃ route, routeOf id p route)
    (hcache : s.cache.IsReady s.now id = false)
    (h0 : Cold s.world)
    (hget : ∀ w, Cold w → reportsReady (K.Get ns id w).1 = false ∧ Cold (K.Get ns id w).2.2)
    (hgs : ∀ w, Cold w → Cold (K.GetScale ns id w).2.2) :
    (runSchedule K ns sched (arrivals paths, s)).1.map Thread.path = paths ∧
      (runSchedule K ns sched (arrivals paths, s)).2.now = s.now + timePassed sched ∧
      (∀ t ∈ (runSchedule K ns sched (arrivals paths, s)).1, scaleOk ns id t.calls) ∧
      scaleRequests (runSchedule K ns sched (arrivals paths, s)).2.trace =
        scaleRequests s.trace ++
          List.replicate (totalScale (runSchedule K ns sched (arrivals paths, s)).1)
            (ns, id, 1) ∧
      totalScale (runSchedule K ns sched (arrivals paths, s)).1 ≤ paths.length ∧
      (∀ t ∈ (runSchedule K ns sched (arrivals paths, s)).1, ∀ resp,
        t.phase = Phase.finished resp →
          forwarded ns id t.path t.calls resp ∨ failedScale ns id t.calls resp) ∧
      (∀ t ∈ (runSchedule K ns sched (arrivals paths, s)).1, ∀ resp,
        t.phase = Phase.finished resp →
          1 ≤ totalScale (runSchedule K ns sched (arrivals paths, s)).1 ∨
            failedGetScale ns id t.calls resp) ∧
      (∃ more, ∀ t ∈ (runSchedule K ns (sched ++ more) (arrivals paths, s)).1, t.returned) ∧
      (∀ path, ∃ acts wake calls, runSchedule K ns acts (arrivals [path], s) =
        ([{ path := path, phase := Phase.finished (activatorHandler K ns path s).1,
            wake := wake, calls := calls }], (activatorHandler K ns path s).2)) := by
  obtain ⟨hok, htr, hcold⟩ := runSchedule_inv K ns id (scaleRequests s.trace) Cold hget hgs
    sched (arrivals paths, s) (arrivals_inv ns id Cold paths s hpaths hcache h0)
  have hpath := runSchedule_paths K ns sched (arrivals paths, s)
  rw [arrivals_paths] at hpath
  have hscale : ∀ t ∈ (runSchedule K ns sched (arrivals paths, s)).1, scaleOk ns id t.calls := by
    intro t ht
    have h := (hok t ht).2
    cases hph : t.phase with
    | start => rw [hph] at h; rw [show t.calls = [] from h]; exact (scaleOk_of_zero ns id [] rfl).1
    | query route =>
      rw [hph] at h; rw [show t.calls = [] from h.2]; exact (scaleOk_of_zero ns id [] rfl).1
    | getScale route => rw [hph] at h; exact (scaleOk_of_zero ns id _ h.2).1
    | updateScale route scale => rw [hph] at h; exact (scaleOk_of_zero ns id _ h.2.2).1
    | waitStart route => rw [hph] at h; exact h.2.1
    | poll route deadline => rw [hph] at h; exact h.2.1
    | sleeping route deadline => rw [hph] at h; exact h.2.1
    | mark route => rw [hph] at h; exact h.2.1
    | finished resp => rw [hph] at h; exact h.1
  refine ⟨hpath, runSchedule_now K ns sched (arrivals paths, s), hscale, htr, ?_, ?_, ?_, ?_, ?_⟩
  · have h := totalScale_le ns id _ hscale
    have hlen := congrArg List.length hpath
    simp only [List.length_map] at hlen
    omega
  · intro t ht resp hfin
    have h := (hok t ht).2
    rw [hfin] at h
    exact h.2
  · intro t ht resp hfin
    by_cases hz : totalScale (runSchedule K ns sched (arrivals paths, s)).1 = 0
    · right
      have h := (hcold hz).2.2 t ht
      unfold early at h
      rw [hfin] at h
      exact h
    · left
      omega
  · obtain ⟨more, hm⟩ := finish_all K ns (runSchedule K ns sched (arrivals paths, s))
    exact ⟨more, by rw [runSchedule_append]; exact hm⟩
  · exact fun path => lone_thread_is_handler K ns path s

/-- The amended C10 at two requests for `/preview/demo/api`, scheduled in turn
on the sample cluster while it is cold: between them the handlers have
issued two scale requests, each one, and these are what reached the
control plane. -/
theorem concurrent_requests_bounded_witness :
    (runSchedule (cluster 2) "preview"
        [Action.run 0, Action.run 1, Action.run 0, Action.run 1, Action.run 0, Action.run 1,
          Action.run 0, Action.run 1]
        (arrivals ["/preview/demo/api", "/preview/demo/api"], initial 0 none)).1.map
          Thread.path = ["/preview/demo/api", "/preview/demo/api"] ∧
      totalScale (runSchedule (cluster 2) "preview"
        [Action.run 0, Action.run 1, Action.run 0, Action.run 1, Action.run 0, Action.run 1,
          Action.run 0, Action.run 1]
        (arrivals ["/preview/demo/api", "/preview/demo/api"], initial 0 none)).1 = 2 ∧
      scaleRequests (runSchedule (cluster 2) "preview"
        [Action.run 0, Action.run 1, Action.run 0, Action.run 1, Action.run 0, Action.run 1,
          Action.run 0, Action.run 1]
        (arrivals ["/preview/demo/api", "/preview/demo/api"], initial 0 none)).2.trace =
        scaleRequests (initial 0 (none : Option Nat)).trace ++
          List.replicate (totalScale (runSchedule (cluster 2) "preview"
            [Action.run 0, Action.run 1, Action.run 0, Action.run 1, Action.run 0, Action.run 1,
              Action.run 0, Action.run 1]
            (arrivals ["/preview/demo/api", "/preview/demo/api"], initial 0 none)).1)
            ("preview", "demo-ecosystem-api", 1) :=
  have h := concurrent_requests_bounded (cluster 2) "preview" "demo-ecosystem-api"
    ["/preview/demo/api", "/preview/demo/api"]
    [Action.run 0, Action.run 1, Action.run 0, Action.run 1, Action.run 0, Action.run 1,
      Action.run 0, Action.run 1]
    (initial 0 none) (fun w => w = none)
    (fun p hp => ⟨{ env := "demo", svc := "api", rest := "/" }, by
      simp only [List.mem_cons, List.mem_singleton, List.not_mem_nil, or_false, or_self] at hp
      subst hp
      exact ⟨by decide, by decide⟩⟩)
    (by decide) rfl
    (fun w hw => by subst hw; exact ⟨rfl, rfl⟩)
    (fun w hw => by subst hw; rfl)
  ⟨h.1, by decide, h.2.2.2.1⟩

end Activator
